import Mathlib

/-!
# Segmented scan (scan-by-key) of the HIP backend

A shallow embedding of `thrust/system/hip/detail/scan_by_key.h`, with the
sequential tag of `thrust/detail/seq.h` and the generator tests of
`test/test_generate.cpp`.

* A random-access input iterator is the function from an offset to the element
  found there (`key_first[i]`, `value_first[i]`).
* The end of the key range, `key_last`, is given by its offset from `key_first`,
  so that `thrust::distance(key_first, key_last)` is that offset. The range is a
  valid one: the offset is a natural number and the cast to `size_t` keeps it.
* An output iterator is an address of the output memory of the `State`.
* Every call into the HIP runtime or into rocPRIM is a function of the `State`;
  what the runtime answers during one call is fixed by a `Runtime` value, over
  which the theorems quantify.
* A C++ exception is the `thrown` outcome; the state reached when it is thrown is
  returned next to it.
-/

namespace thrust

/-! ## Element types and functors -/

/-- Implicit conversion from `A` to `B`, as C++ inserts it on assignment and on
argument passing. -/
class Convertible (A B : Type) where
  conv : A → B

/-- Conversion of a type to itself is the identity. -/
instance Convertible.same (A : Type) : Convertible A A := ⟨fun a => a⟩

/-- Modelled from the spec: `thrust::plus<T>` of `thrust/functional.h`, the
default operator `plus` of the facade: `lhs + rhs` computed in `T`. -/
def plus (T : Type) [Add T] (lhs rhs : T) : T := lhs + rhs

/-- Modelled from the spec: `thrust::equal_to<T>` of `thrust/functional.h`, the
default equivalence (equality on the key type). -/
def equal_to (T : Type) [DecidableEq T] (lhs rhs : T) : Bool := decide (lhs = rhs)

/-- A binary functor over `T` invoked on operands of type `A`, its result used as
an `A`: both operands are converted to `T`, the result is converted back. -/
def invoke {T A : Type} [Convertible A T] [Convertible T A] (f : T → T → T) (a b : A) : A :=
  Convertible.conv (f (Convertible.conv a) (Convertible.conv b))

/-! ## HIP runtime -/

/-- Status code of the HIP runtime. -/
abbrev hipError_t := Nat

/-- The status `hipSuccess`. -/
def hipSuccess : hipError_t := 0

/-- The null pointer. -/
def nullptr : Nat := 0

/-- The exception `thrust::system_error`: a status code and a message. -/
structure system_error where
  code : hipError_t
  what : String
deriving DecidableEq, Repr

/-- How a call ends: it returns a value, or an exception leaves it. -/
inductive Outcome (α : Type) where
  | returned (value : α)
  | thrown (e : system_error)
deriving DecidableEq, Repr

/-- What is observable of the passes and of the workspace during a call. -/
inductive Event where
  | sizing_pass (num_items : Nat)
  | get_memory_buffer (bytes : Nat) (ptr : Nat)
  | scan_pass (d_temp_storage : Nat) (temp_storage_bytes : Nat) (num_items : Nat)
  | return_memory_buffer (ptr : Nat)
deriving DecidableEq, Repr

/-- Output memory (`mem`), the addresses written so far in order (`written`), the
events so far (`trace`) and the error `hipGetLastError` would report. -/
structure State (O : Type) where
  mem : Nat → O
  written : List Nat
  trace : List Event
  last_error : hipError_t

/-- What the runtime and the device answer during one call: the status of the
sizing pass and the byte count it reports, the pointer the allocator hands out,
the error left by the allocation, the status of the scan pass and the error
left by the release. A region acquired without an error is not null (spec 4.1:
even `acquire(0)` returns a non-null sentinel). -/
structure Runtime where
  sizing_status : hipError_t
  storage_bytes : Nat
  buffer : Nat
  malloc_error : hipError_t
  scan_status : hipError_t
  free_error : hipError_t
  buffer_valid : malloc_error = hipSuccess → buffer ≠ nullptr

/-- No step reports an error. -/
def Runtime.healthy (rt : Runtime) : Prop :=
  rt.sizing_status = hipSuccess ∧ rt.malloc_error = hipSuccess ∧
    rt.scan_status = hipSuccess ∧ rt.free_error = hipSuccess

instance (rt : Runtime) : Decidable rt.healthy := by
  unfold Runtime.healthy; infer_instance

/-- Execution policy: it carries the stream of the call. -/
structure Policy where
  stream : Nat
deriving DecidableEq, Repr

/-- One store through the output iterator. -/
def State.write {O : Type} (s : State O) (addr : Nat) (v : O) : State O :=
  { s with mem := fun a => if a = addr then v else s.mem a, written := s.written ++ [addr] }

/-- Appends an event to the trace. -/
def State.log {O : Type} (s : State O) (e : Event) : State O :=
  { s with trace := s.trace ++ [e] }

/-- Stores `f 0, ..., f (n-1)` at `base, ..., base + n - 1`. -/
def State.write_range {O : Type} (s : State O) (base n : Nat) (f : Nat → O) : State O :=
  (List.range n).foldl (fun st p => st.write (base + p) (f p)) s

/-! ## The segmented scan computed by the device -/

/-- Modelled from the spec: part of the rocPRIM primitives, which are not part of
the sources. The position that opens the segment of `p` (spec 3, 4.3): the last
`i ≤ p` with `i = 0` or `equiv (key (i-1)) (key i)` false. -/
def segment_head {K : Type} (equiv : K → K → Bool) (key : Nat → K) : Nat → Nat
  | 0 => 0
  | p + 1 => if equiv (key p) (key (p + 1)) then segment_head equiv key p else p + 1

/-- Modelled from the spec: part of the rocPRIM primitives, which are not part of
the sources. The inclusive fold of the segment of `p` (spec 4.3, glossary), from
its opening position up to and including `p`, taken from the left. -/
def segmented_inclusive {K V : Type} (op : V → V → V) (equiv : K → K → Bool)
    (key : Nat → K) (val : Nat → V) (p : Nat) : V :=
  let h := segment_head equiv key p
  (List.range' (h + 1) (p - h)).foldl (fun acc i => op acc (val i)) (val h)

/-- Modelled from the spec: part of the rocPRIM primitives, which are not part of
the sources. The exclusive fold of the segment of `p` (spec 4.3, glossary):
`init` folded from the left with the values from the opening position up to,
not including, `p`. -/
def segmented_exclusive {K V : Type} (op : V → V → V) (equiv : K → K → Bool)
    (key : Nat → K) (val : Nat → V) (init : V) (p : Nat) : V :=
  let h := segment_head equiv key p
  (List.range' h (p - h)).foldl (fun acc i => op acc (val i)) init

namespace rocprim

/-- Modelled from the spec: `rocprim::inclusive_scan_by_key` of rocPRIM, which
is not part of the sources. With a null `temporary_storage` it is the sizing
pass: it reports the byte count and writes nothing. Otherwise it is the scan
pass: on success every output position holds the inclusive left fold of its
segment (spec 3 and 4.3); on a device error the output is unspecified and is
left as it was here. -/
def inclusive_scan_by_key {K V O : Type} [Convertible V O] (rt : Runtime)
    (temporary_storage : Nat) (storage_size : Nat) (keys_input : Nat → K)
    (values_input : Nat → V) (values_output : Nat) (size : Nat) (scan_op : V → V → V)
    (key_compare_op : K → K → Bool) (_stream : Nat) (_debug_synchronous : Bool)
    (s : State O) : hipError_t × Nat × State O :=
  if temporary_storage = nullptr then
    (rt.sizing_status, rt.storage_bytes, s.log (Event.sizing_pass size))
  else
    let s := s.log (Event.scan_pass temporary_storage storage_size size)
    if rt.scan_status = hipSuccess then
      (hipSuccess, storage_size, s.write_range values_output size
        (fun p => Convertible.conv (segmented_inclusive scan_op key_compare_op keys_input values_input p)))
    else (rt.scan_status, storage_size, s)

/-- Modelled from the spec: `rocprim::exclusive_scan_by_key` of rocPRIM, which
is not part of the sources. As the inclusive primitive, with the exclusive left
fold seeded by `initial_value`, converted to the value type, at the opening of
every segment (spec 3 and 4.3). -/
def exclusive_scan_by_key {K V O I : Type} [Convertible V O] [Convertible I V] (rt : Runtime)
    (temporary_storage : Nat) (storage_size : Nat) (keys_input : Nat → K)
    (values_input : Nat → V) (values_output : Nat) (initial_value : I) (size : Nat)
    (scan_op : V → V → V) (key_compare_op : K → K → Bool) (_stream : Nat)
    (_debug_synchronous : Bool) (s : State O) : hipError_t × Nat × State O :=
  if temporary_storage = nullptr then
    (rt.sizing_status, rt.storage_bytes, s.log (Event.sizing_pass size))
  else
    let s := s.log (Event.scan_pass temporary_storage storage_size size)
    if rt.scan_status = hipSuccess then
      (hipSuccess, storage_size, s.write_range values_output size
        (fun p => Convertible.conv (segmented_exclusive scan_op key_compare_op keys_input
          values_input (Convertible.conv initial_value) p)))
    else (rt.scan_status, storage_size, s)

/-- Modelled from the spec: `rocprim::detail::align_size` of rocPRIM: the size
rounded up to the alignment granularity (spec 4.1, 4.3 step 2). -/
def align_size (size alignment : Nat) : Nat :=
  ((size + alignment - 1) / alignment) * alignment

/-- Modelled from the spec: the alignment granularity of the workspace (spec
4.1), the second argument `align_size` takes by default. -/
def default_alignment : Nat := 256

end rocprim

namespace hip_rocprim

/-- Modelled from the spec: `hip_rocprim::stream` of `util.h`: the stream of the
policy. -/
def stream (policy : Policy) : Nat := policy.stream

/-- Modelled from the spec: the macro `THRUST_HIP_DEBUG_SYNC_FLAG` of the
configuration, which is not part of the sources: no debug synchronisation. The
primitives do not depend on it. -/
def THRUST_HIP_DEBUG_SYNC_FLAG : Bool := false

/-- Modelled from the spec: `hip_rocprim::throw_on_error` of `util.h`: throws a
`system_error` with the message when the status is not `hipSuccess`. -/
def throw_on_error (status : hipError_t) (msg : String) : Except system_error Unit :=
  if status = hipSuccess then Except.ok () else Except.error ⟨status, msg⟩

/-- Modelled from the spec: `hipGetLastError` of the HIP runtime: returns the
last error and resets it to `hipSuccess`. -/
def hipGetLastError {O : Type} (s : State O) : hipError_t × State O :=
  (s.last_error, { s with last_error := hipSuccess })

/-- Modelled from the spec: `hip_rocprim::get_memory_buffer` of
`memory_buffer.h`, the `acquire` of the workspace allocator (spec 4.1): hands
out the pointer chosen by the runtime and leaves the error of the allocation. -/
def get_memory_buffer {O : Type} (rt : Runtime) (_policy : Policy) (n : Nat) (s : State O) :
    Nat × State O :=
  (rt.buffer, { s.log (Event.get_memory_buffer n rt.buffer) with last_error := rt.malloc_error })

/-- Modelled from the spec: `hip_rocprim::return_memory_buffer` of
`memory_buffer.h`, the `release` of the workspace allocator (spec 4.1). -/
def return_memory_buffer {O : Type} (rt : Runtime) (_policy : Policy) (ptr : Nat) (s : State O) :
    State O :=
  { s.log (Event.return_memory_buffer ptr) with last_error := rt.free_error }

namespace __scan_by_key

/-- The engine `__scan_by_key::inclusive_scan_by_key` (scan_by_key.h, lines
21-85). -/
def inclusive_scan_by_key {K V O : Type} [Convertible V O] (rt : Runtime) (policy : Policy)
    (key_first : Nat → K) (key_last : Nat) (value_first : Nat → V) (value_result : Nat)
    (key_compare_op : K → K → Bool) (scan_op : V → V → V) (s : State O) :
    Outcome Nat × State O :=
  let num_items := key_last
  let d_temp_storage := nullptr
  let temp_storage_bytes := 0
  let stream := hip_rocprim.stream policy
  let debug_sync := THRUST_HIP_DEBUG_SYNC_FLAG
  if num_items = 0 then (Outcome.returned value_result, s)
  else
    -- Determine temporary device storage requirements.
    match rocprim.inclusive_scan_by_key rt d_temp_storage temp_storage_bytes key_first
        value_first value_result num_items scan_op key_compare_op stream debug_sync s with
    | (status, temp_storage_bytes, s) =>
    match throw_on_error status "scan_by_key failed on 1st step" with
    | Except.error e => (Outcome.thrown e, s)
    | Except.ok _ =>
    -- Allocate temporary storage.
    let temp_storage_bytes := rocprim.align_size temp_storage_bytes rocprim.default_alignment
    match get_memory_buffer rt policy temp_storage_bytes s with
    | (d_temp_storage, s) =>
    match hipGetLastError s with
    | (status, s) =>
    match throw_on_error status "scan_by_key failed to get memory buffer" with
    | Except.error e => (Outcome.thrown e, s)
    | Except.ok _ =>
    -- Run scan.
    match rocprim.inclusive_scan_by_key rt d_temp_storage temp_storage_bytes key_first
        value_first value_result num_items scan_op key_compare_op stream debug_sync s with
    | (status, _, s) =>
    match throw_on_error status "scan_by_key failed on 2nd step" with
    | Except.error e => (Outcome.thrown e, s)
    | Except.ok _ =>
    let s := return_memory_buffer rt policy d_temp_storage s
    match hipGetLastError s with
    | (status, s) =>
    match throw_on_error status "scan_by_key failed to return memory buffer" with
    | Except.error e => (Outcome.thrown e, s)
    | Except.ok _ => (Outcome.returned (value_result + num_items), s)

/-- The engine `__scan_by_key::exclusive_scan_by_key` (scan_by_key.h, lines
87-156). -/
def exclusive_scan_by_key {K V O I : Type} [Convertible V O] [Convertible I V] (rt : Runtime)
    (policy : Policy) (key_first : Nat → K) (key_last : Nat) (value_first : Nat → V)
    (value_result : Nat) (init : I) (key_compare_op : K → K → Bool) (scan_op : V → V → V)
    (s : State O) : Outcome Nat × State O :=
  let num_items := key_last
  let d_temp_storage := nullptr
  let temp_storage_bytes := 0
  let stream := hip_rocprim.stream policy
  let debug_sync := THRUST_HIP_DEBUG_SYNC_FLAG
  if num_items = 0 then (Outcome.returned value_result, s)
  else
    -- Determine temporary device storage requirements.
    match rocprim.exclusive_scan_by_key rt d_temp_storage temp_storage_bytes key_first
        value_first value_result init num_items scan_op key_compare_op stream debug_sync s with
    | (status, temp_storage_bytes, s) =>
    match throw_on_error status "scan_by_key failed on 1st step" with
    | Except.error e => (Outcome.thrown e, s)
    | Except.ok _ =>
    -- Allocate temporary storage.
    let temp_storage_bytes := rocprim.align_size temp_storage_bytes rocprim.default_alignment
    match get_memory_buffer rt policy temp_storage_bytes s with
    | (d_temp_storage, s) =>
    match hipGetLastError s with
    | (status, s) =>
    match throw_on_error status "scan_by_key failed to get memory buffer" with
    | Except.error e => (Outcome.thrown e, s)
    | Except.ok _ =>
    -- Run scan.
    match rocprim.exclusive_scan_by_key rt d_temp_storage temp_storage_bytes key_first
        value_first value_result init num_items scan_op key_compare_op stream debug_sync s with
    | (status, _, s) =>
    match throw_on_error status "scan_by_key failed on 2nd step" with
    | Except.error e => (Outcome.thrown e, s)
    | Except.ok _ =>
    let s := return_memory_buffer rt policy d_temp_storage s
    match hipGetLastError s with
    | (status, s) =>
    match throw_on_error status "scan_by_key failed to return memory buffer" with
    | Except.error e => (Outcome.thrown e, s)
    | Except.ok _ => (Outcome.returned (value_result + num_items), s)

end __scan_by_key

end hip_rocprim

/-! ## The sequential fallback -/

namespace detail

/-- The sequential execution-policy tag `thrust::detail::seq_t` (seq.h): it has
no state. -/
structure seq_t where
deriving DecidableEq, Repr

/-- The default constructor `seq_t()` (seq.h, lines 35-36). -/
def seq_t.default : seq_t := {}

/-- The converting constructor of `seq_t` (seq.h, lines 38-42), a template over
the derived policy type: any execution policy converts to the sequential tag,
and the argument is not used. -/
def seq_t.of_policy {DerivedPolicy : Type} (_policy : DerivedPolicy) : seq_t := {}

end detail

/-- The tag object `thrust::seq` (seq.h). -/
def seq : detail.seq_t := {}

namespace sequential

/-- Modelled from the spec: the loop of the sequential inclusive scan by key
(spec 4.5), which is not part of the sources: `i` is the offset of the key and
value iterators, `result` the output iterator, `prev_key` and `prev_value` the
key and the running value of the position before. -/
def inclusive_loop {K V O : Type} [Convertible V O] (first1 : Nat → K) (first2 : Nat → V)
    (binary_pred : K → K → Bool) (binary_op : V → V → V) :
    Nat → Nat → Nat → K → V → State O → Nat × State O
  | 0, _, result, _, _, s => (result, s)
  | remaining + 1, i, result, prev_key, prev_value, s =>
    let key := first1 i
    let prev_value := if binary_pred prev_key key then binary_op prev_value (first2 i)
      else first2 i
    inclusive_loop first1 first2 binary_pred binary_op remaining (i + 1) (result + 1) key
      prev_value (s.write result (Convertible.conv prev_value))

/-- Modelled from the spec: the sequential `inclusive_scan_by_key` of
`thrust/system/detail/sequential/scan_by_key.h`, which is not part of the
sources: a single-threaded left fold per segment (spec 4.5). -/
def inclusive_scan_by_key {K V O : Type} [Convertible V O] (first1 : Nat → K) (last1 : Nat)
    (first2 : Nat → V) (result : Nat) (binary_pred : K → K → Bool) (binary_op : V → V → V)
    (s : State O) : Nat × State O :=
  if last1 = 0 then (result, s)
  else
    let prev_key := first1 0
    let prev_value := first2 0
    inclusive_loop first1 first2 binary_pred binary_op (last1 - 1) 1 (result + 1) prev_key
      prev_value (s.write result (Convertible.conv prev_value))

/-- Modelled from the spec: the loop of the sequential exclusive scan by key
(spec 4.5), which is not part of the sources: `temp_key` is the key of the
position before, `next` the value the current position receives when it does
not open a segment. -/
def exclusive_loop {K V O : Type} [Convertible V O] (first1 : Nat → K) (first2 : Nat → V)
    (init : V) (binary_pred : K → K → Bool) (binary_op : V → V → V) :
    Nat → Nat → Nat → K → V → State O → Nat × State O
  | 0, _, result, _, _, s => (result, s)
  | remaining + 1, i, result, temp_key, next, s =>
    let key := first1 i
    let temp_value := first2 i
    let next := if binary_pred temp_key key then next else init
    exclusive_loop first1 first2 init binary_pred binary_op remaining (i + 1) (result + 1) key
      (binary_op next temp_value) (s.write result (Convertible.conv next))

/-- Modelled from the spec: the sequential `exclusive_scan_by_key` of
`thrust/system/detail/sequential/scan_by_key.h`, which is not part of the
sources: a single-threaded left fold per segment, every segment seeded with
`init` (spec 4.5). -/
def exclusive_scan_by_key {K V O I : Type} [Convertible V O] [Convertible I V] (first1 : Nat → K)
    (last1 : Nat) (first2 : Nat → V) (result : Nat) (init : I) (binary_pred : K → K → Bool)
    (binary_op : V → V → V) (s : State O) : Nat × State O :=
  if last1 = 0 then (result, s)
  else
    let temp_key := first1 0
    let temp_value := first2 0
    let next : V := Convertible.conv init
    exclusive_loop first1 first2 (Convertible.conv init) binary_pred binary_op (last1 - 1) 1
      (result + 1) temp_key (binary_op next temp_value) (s.write result (Convertible.conv next))

end sequential

/-- Modelled from the spec: `thrust::inclusive_scan_by_key` of `thrust/scan.h`
called with the sequential tag: it dispatches to the sequential algorithm. -/
def inclusive_scan_by_key {K V O : Type} [Convertible V O] (_exec : detail.seq_t)
    (first1 : Nat → K) (last1 : Nat) (first2 : Nat → V) (result : Nat)
    (binary_pred : K → K → Bool) (binary_op : V → V → V) (s : State O) : Nat × State O :=
  sequential.inclusive_scan_by_key first1 last1 first2 result binary_pred binary_op s

/-- Modelled from the spec: `thrust::exclusive_scan_by_key` of `thrust/scan.h`
called with the sequential tag: it dispatches to the sequential algorithm. -/
def exclusive_scan_by_key {K V O I : Type} [Convertible V O] [Convertible I V]
    (_exec : detail.seq_t) (first1 : Nat → K) (last1 : Nat) (first2 : Nat → V) (result : Nat)
    (init : I) (binary_pred : K → K → Bool) (binary_op : V → V → V) (s : State O) :
    Nat × State O :=
  sequential.exclusive_scan_by_key first1 last1 first2 result init binary_pred binary_op s

namespace hip_rocprim

/-- Modelled from the spec: `derived_cast` of the execution policy: the policy
seen as its derived type. -/
def derived_cast (policy : Policy) : Policy := policy

/-- Modelled from the spec: `cvt_to_seq` of `par_to_seq.h`: the sequential tag
obtained from a policy. -/
def cvt_to_seq (policy : Policy) : detail.seq_t := detail.seq_t.of_policy policy

/-! ## Thrust API entry points

`THRUST_HAS_HIPRT` is the compile-time switch `__THRUST_HAS_HIPRT__`. The macro
`THRUST_HIP_PRESERVE_KERNELS_WORKAROUND` only forces an instantiation and has
no effect. The overloads of one name are told apart by a suffix. -/

/-- The entry point `hip_rocprim::inclusive_scan_by_key` with `binary_pred` and
`scan_op` (scan_by_key.h, lines 168-206). -/
def inclusive_scan_by_key {K V O : Type} [Convertible V O] (THRUST_HAS_HIPRT : Bool)
    (rt : Runtime) (policy : Policy) (key_first : Nat → K) (key_last : Nat)
    (value_first : Nat → V) (value_result : Nat) (binary_pred : K → K → Bool)
    (scan_op : V → V → V) (s : State O) : Outcome Nat × State O :=
  if THRUST_HAS_HIPRT then
    __scan_by_key.inclusive_scan_by_key rt policy key_first key_last value_first value_result
      binary_pred scan_op s
  else
    match thrust.inclusive_scan_by_key (cvt_to_seq (derived_cast policy)) key_first key_last
        value_first value_result binary_pred scan_op s with
    | (ret, s) => (Outcome.returned ret, s)

/-- The overload of `hip_rocprim::inclusive_scan_by_key` with `binary_pred` only
(scan_by_key.h, lines 208-229): `value_type` is the value type `O` of the
output iterator. -/
def inclusive_scan_by_key_pred {K V O : Type} [Convertible V O] [Convertible O V] [Add O]
    (THRUST_HAS_HIPRT : Bool) (rt : Runtime) (policy : Policy) (key_first : Nat → K)
    (key_last : Nat) (value_first : Nat → V) (value_result : Nat)
    (binary_pred : K → K → Bool) (s : State O) : Outcome Nat × State O :=
  hip_rocprim.inclusive_scan_by_key THRUST_HAS_HIPRT rt policy key_first key_last value_first
    value_result binary_pred (invoke (plus O)) s

/-- The overload of `hip_rocprim::inclusive_scan_by_key` without functors
(scan_by_key.h, lines 231-249): `key_type` is the value type `K` of the key
iterator. -/
def inclusive_scan_by_key_default {K V O : Type} [DecidableEq K] [Convertible V O]
    [Convertible O V] [Add O] (THRUST_HAS_HIPRT : Bool) (rt : Runtime) (policy : Policy)
    (key_first : Nat → K) (key_last : Nat) (value_first : Nat → V) (value_result : Nat)
    (s : State O) : Outcome Nat × State O :=
  inclusive_scan_by_key_pred THRUST_HAS_HIPRT rt policy key_first key_last value_first
    value_result (equal_to K) s

/-- The entry point `hip_rocprim::exclusive_scan_by_key` with `init`,
`binary_pred` and `scan_op` (scan_by_key.h, lines 256-298). -/
def exclusive_scan_by_key {K V O I : Type} [Convertible V O] [Convertible I V]
    (THRUST_HAS_HIPRT : Bool) (rt : Runtime) (policy : Policy) (key_first : Nat → K)
    (key_last : Nat) (value_first : Nat → V) (value_result : Nat) (init : I)
    (binary_pred : K → K → Bool) (scan_op : V → V → V) (s : State O) :
    Outcome Nat × State O :=
  if THRUST_HAS_HIPRT then
    __scan_by_key.exclusive_scan_by_key rt policy key_first key_last value_first value_result
      init binary_pred scan_op s
  else
    match thrust.exclusive_scan_by_key (cvt_to_seq (derived_cast policy)) key_first key_last
        value_first value_result init binary_pred scan_op s with
    | (ret, s) => (Outcome.returned ret, s)

/-- The overload of `hip_rocprim::exclusive_scan_by_key` with `init` and
`binary_pred` (scan_by_key.h, lines 300-323): the operator is `plus<Init>`. -/
def exclusive_scan_by_key_pred {K V O I : Type} [Convertible V O] [Convertible I V]
    [Convertible V I] [Add I] (THRUST_HAS_HIPRT : Bool) (rt : Runtime) (policy : Policy)
    (key_first : Nat → K) (key_last : Nat) (value_first : Nat → V) (value_result : Nat)
    (init : I) (binary_pred : K → K → Bool) (s : State O) : Outcome Nat × State O :=
  hip_rocprim.exclusive_scan_by_key THRUST_HAS_HIPRT rt policy key_first key_last value_first
    value_result init binary_pred (invoke (plus I)) s

/-- The overload of `hip_rocprim::exclusive_scan_by_key` with `init` only
(scan_by_key.h, lines 325-346): `key_type` is the value type `K` of the key
iterator. -/
def exclusive_scan_by_key_init {K V O I : Type} [DecidableEq K] [Convertible V O]
    [Convertible I V] [Convertible V I] [Add I] (THRUST_HAS_HIPRT : Bool) (rt : Runtime)
    (policy : Policy) (key_first : Nat → K) (key_last : Nat) (value_first : Nat → V)
    (value_result : Nat) (init : I) (s : State O) : Outcome Nat × State O :=
  exclusive_scan_by_key_pred THRUST_HAS_HIPRT rt policy key_first key_last value_first
    value_result init (equal_to K) s

/-- The overload of `hip_rocprim::exclusive_scan_by_key` without `init`
(scan_by_key.h, lines 349-367): `value_type` is the value type `O` of the
output iterator and `init` is `value_type(0)`. -/
def exclusive_scan_by_key_default {K V O : Type} [DecidableEq K] [Convertible V O]
    [Convertible O V] [Add O] [Convertible Int O] (THRUST_HAS_HIPRT : Bool) (rt : Runtime)
    (policy : Policy) (key_first : Nat → K) (key_last : Nat) (value_first : Nat → V)
    (value_result : Nat) (s : State O) : Outcome Nat × State O :=
  exclusive_scan_by_key_init THRUST_HAS_HIPRT rt policy key_first key_last value_first
    value_result (Convertible.conv (0 : Int) : O) s

end hip_rocprim

/-! ## Unsegmented prefix scans

The scans the single-segment case is compared with, in the words of the spec
(section 8). -/

/-- The unsegmented inclusive prefix scan, after the spec:
`out[p] = val[0] op ... op val[p]`, folded from the left. -/
def unsegmented_inclusive_scan {V : Type} (op : V → V → V) (val : Nat → V) : Nat → V
  | 0 => val 0
  | p + 1 => op (unsegmented_inclusive_scan op val p) (val (p + 1))

/-- The unsegmented exclusive prefix scan seeded with `init`, after the spec:
`out[0] = init` and `out[p] = init op val[0] op ... op val[p-1]`, folded from
the left. -/
def unsegmented_exclusive_scan {V : Type} (op : V → V → V) (init : V) (val : Nat → V) :
    Nat → V
  | 0 => init
  | p + 1 => op (unsegmented_exclusive_scan op init val p) (val p)

/-! ## generate

A vector is the list of its elements. A generator is a value `gen` of a type `G`
with its call operator `call : G → T × G`, which returns the generated value and
the generator after the call. -/

/-- The system a vector lives on: `thrust::host_vector` or
`thrust::device_vector`. -/
inductive System where
  | host
  | device
deriving DecidableEq, Repr

/-- Every invocation of the generator, the first and each later one, returns
`v`. -/
def returns_constant {G T : Type} (call : G → T × G) (gen : G) (v : T) : Prop :=
  ∀ k : Nat, (call ((fun g => (call g).2)^[k] gen)).1 = v

namespace sequential

/-- Modelled from the spec: `generate` of the sequential system, which is not
part of the sources (only its test is): the generator-fill loop, which assigns
the results of successive invocations of the generator to the positions of the
range in order. -/
def generate {G T : Type} (call : G → T × G) : List T → G → List T
  | [], _ => []
  | _ :: rest, gen => (call gen).1 :: generate call rest (call gen).2

end sequential

namespace hip_rocprim

/-- Modelled from the spec: `generate` of the HIP system, which is not part of
the sources (only its test is): the generator-fill in which every position is
assigned by its own thread, invoking its own copy of the generator. -/
def generate {G T : Type} (call : G → T × G) (xs : List T) (gen : G) : List T :=
  xs.map (fun _ => (call gen).1)

end hip_rocprim

/-- Modelled from the spec: `thrust::generate(first, last, gen)` of
`thrust/generate.h`, which is not part of the sources: it dispatches on the
system of the range `xs = [first, last)` and gives the range after the call. -/
def generate {G T : Type} (sys : System) (call : G → T × G) (xs : List T) (gen : G) : List T :=
  match sys with
  | System.host => sequential.generate call xs gen
  | System.device => hip_rocprim.generate call xs gen

/-- Modelled from the spec: `thrust::generate_n(first, n, gen)` of
`thrust/generate.h`, which is not part of the sources: it fills the `n`
positions from `first` on and returns `first + n`; `xs` is the sequence that
starts at `first`. -/
def generate_n {G T : Type} (sys : System) (call : G → T × G) (xs : List T) (n : Nat)
    (gen : G) : List T × Nat :=
  (generate sys call (xs.take n) gen ++ xs.drop n, n)

end thrust

namespace test_generate

/-- The generator `return_value<T>` of test_generate.cpp (lines 114-131): it
holds `val`. -/
structure return_value (T : Type) where
  val : T
deriving DecidableEq, Repr

/-- The call operator of `return_value<T>` (test_generate.cpp, lines 127-130):
it returns `val` and leaves the generator as it is. -/
def return_value.call {T : Type} (f : return_value T) : T × return_value T := (f.val, f)

/-- The test `GenerateVectorTests.TestGenerateSimple` (test_generate.cpp, lines
133-151) up to its assertions: the vector `result` after the call, for a vector
on the system `sys` with zero `zero` and `value` the 13 of `T`. -/
def TestGenerateSimple {T : Type} (sys : thrust.System) (zero value : T) : List T :=
  let result := List.replicate 5 zero
  let f : return_value T := ⟨value⟩
  thrust.generate sys return_value.call result f

/-- The test `GenerateVectorTests.TestGenerateNSimple` (test_generate.cpp, lines
223-241) up to its assertions: the vector `result` after the call. -/
def TestGenerateNSimple {T : Type} (sys : thrust.System) (zero value : T) : List T :=
  let result := List.replicate 5 zero
  let f : return_value T := ⟨value⟩
  (thrust.generate_n sys return_value.call result result.length f).1

/-- The body of the loop of the test `GenerateVariablesTests.TestGenerate`
(test_generate.cpp, lines 185-204) for one `size`, up to its assertion: the
host vector and the device vector after the calls. -/
def TestGenerate {T : Type} (size : Nat) (zero value : T) : List T × List T :=
  let h_result := List.replicate size zero
  let d_result := List.replicate size zero
  let f : return_value T := ⟨value⟩
  (thrust.generate thrust.System.host return_value.call h_result f,
    thrust.generate thrust.System.device return_value.call d_result f)

end test_generate

/-! ## Concrete inputs -/

namespace thrust

namespace examples

/-- A value type with a fractional part, such as `float` or a fixed-point class,
is represented by the rationals (1/2 and 1 are exact in `float` as well); it
converts to `int` by truncation toward zero. -/
instance rat_to_int : Convertible ℚ Int := ⟨fun q => Int.tdiv q.num q.den⟩

/-- An `int` converts to the value type with a fractional part exactly. -/
instance int_to_rat : Convertible Int ℚ := ⟨fun z => (z : ℚ)⟩

/-- A runtime in which no step reports an error. -/
def runtime_ok : Runtime :=
  { sizing_status := hipSuccess, storage_bytes := 1000, buffer := 4096,
    malloc_error := hipSuccess, scan_status := hipSuccess, free_error := hipSuccess,
    buffer_valid := by decide }

/-- A runtime in which the scan pass on the acquired workspace reports the device
error 719. -/
def runtime_scan_fault : Runtime :=
  { sizing_status := hipSuccess, storage_bytes := 1000, buffer := 4096,
    malloc_error := hipSuccess, scan_status := 719, free_error := hipSuccess,
    buffer_valid := by decide }

/-- A runtime in which the error check after the acquisition reports the error
2. -/
def runtime_malloc_fault : Runtime :=
  { sizing_status := hipSuccess, storage_bytes := 1000, buffer := 4096,
    malloc_error := 2, scan_status := hipSuccess, free_error := hipSuccess,
    buffer_valid := by decide }

/-- A policy on the default stream. -/
def policy : Policy := ⟨0⟩

/-- The input iterator over the elements of a list; `d` is read past its end. -/
def of_list {T : Type} (xs : List T) (d : T) : Nat → T := fun i => xs.getD i d

/-- A state with nothing written, no event and no pending error; every cell of
the output memory holds `d`. -/
def fresh {O : Type} (d : O) : State O := ⟨fun _ => d, [], [], hipSuccess⟩

/-- The `n` output cells from `base` on after a call. -/
def output {O : Type} (r : Outcome Nat × State O) (base n : Nat) : List O :=
  (List.range n).map (fun p => r.2.mem (base + p))

end examples

end thrust

/-! # Properties -/

namespace thrust

theorem State.write_range_succ {O : Type} (s : State O) (base n : Nat) (f : Nat → O) :
    s.write_range base (n + 1) f = (s.write_range base n f).write (base + n) (f n) := by
  simp [State.write_range, List.range_succ, List.foldl_append]

theorem State.write_range_mem {O : Type} (s : State O) (base n : Nat) (f : Nat → O) (a : Nat) :
    (s.write_range base n f).mem a = if base ≤ a ∧ a < base + n then f (a - base) else s.mem a := by
  induction n with
  | zero =>
    have : ¬ (base ≤ a ∧ a < base) := by omega
    simp [State.write_range, this]
  | succ n ih =>
    rw [State.write_range_succ]
    simp only [State.write]
    by_cases h : a = base + n
    · subst h; simp
    · simp only [h, if_false, ih]
      by_cases h2 : base ≤ a ∧ a < base + n
      · have : base ≤ a ∧ a < base + (n + 1) := by omega
        simp [h2, this]
      · have : ¬ (base ≤ a ∧ a < base + (n + 1)) := by omega
        simp [h2, this]

theorem State.write_range_written {O : Type} (s : State O) (base n : Nat) (f : Nat → O) :
    (s.write_range base n f).written = s.written ++ (List.range n).map (fun p => base + p) := by
  induction n with
  | zero => simp [State.write_range]
  | succ n ih =>
    rw [State.write_range_succ]
    simp [State.write, ih, List.range_succ]

theorem State.write_range_trace {O : Type} (s : State O) (base n : Nat) (f : Nat → O) :
    (s.write_range base n f).trace = s.trace := by
  induction n with
  | zero => simp [State.write_range]
  | succ n ih => rw [State.write_range_succ]; simp [State.write, ih]

theorem State.write_range_last_error {O : Type} (s : State O) (base n : Nat) (f : Nat → O) :
    (s.write_range base n f).last_error = s.last_error := by
  induction n with
  | zero => simp [State.write_range]
  | succ n ih => rw [State.write_range_succ]; simp [State.write, ih]

theorem State.write_range_eq {O : Type} (s : State O) (base n : Nat) (f : Nat → O) :
    s.write_range base n f =
      { mem := fun a => if base ≤ a ∧ a < base + n then f (a - base) else s.mem a
        written := s.written ++ (List.range n).map (fun p => base + p)
        trace := s.trace
        last_error := s.last_error } := by
  have h1 := State.write_range_written s base n f
  have h2 := State.write_range_trace s base n f
  have h3 := State.write_range_last_error s base n f
  have h4 : (s.write_range base n f).mem
      = fun a => if base ≤ a ∧ a < base + n then f (a - base) else s.mem a :=
    funext (State.write_range_mem s base n f)
  cases hs : s.write_range base n f with
  | mk m w t e =>
    rw [hs] at h1 h2 h3 h4
    simp only at h1 h2 h3 h4
    rw [h1, h2, h3, h4]

namespace hip_rocprim.__scan_by_key

theorem inclusive_healthy {K V O : Type} [Convertible V O] (rt : Runtime) (policy : Policy)
    (key_first : Nat → K) (key_last : Nat) (value_first : Nat → V) (value_result : Nat)
    (key_compare_op : K → K → Bool) (scan_op : V → V → V) (s : State O)
    (hn : key_last ≠ 0) (hrt : rt.healthy) :
    inclusive_scan_by_key rt policy key_first key_last value_first value_result
        key_compare_op scan_op s
      = (Outcome.returned (value_result + key_last),
          { mem := fun a => if value_result ≤ a ∧ a < value_result + key_last then
              Convertible.conv (segmented_inclusive scan_op key_compare_op key_first value_first
                (a - value_result)) else s.mem a
            written := s.written ++ (List.range key_last).map (fun p => value_result + p)
            trace := s.trace ++
              [Event.sizing_pass key_last,
               Event.get_memory_buffer
                 (rocprim.align_size rt.storage_bytes rocprim.default_alignment) rt.buffer,
               Event.scan_pass rt.buffer
                 (rocprim.align_size rt.storage_bytes rocprim.default_alignment) key_last,
               Event.return_memory_buffer rt.buffer]
            last_error := hipSuccess }) := by
  obtain ⟨h1, h2, h3, h4⟩ := hrt
  have hb := rt.buffer_valid h2
  simp [inclusive_scan_by_key, rocprim.inclusive_scan_by_key, throw_on_error, get_memory_buffer,
    hipGetLastError, return_memory_buffer, State.log, hn, h1, h2, h3, h4, hb,
    State.write_range_eq]

theorem inclusive_returned {K V O : Type} [Convertible V O] (rt : Runtime) (policy : Policy)
    (key_first : Nat → K) (key_last : Nat) (value_first : Nat → V) (value_result : Nat)
    (key_compare_op : K → K → Bool) (scan_op : V → V → V) (s : State O) (r : Nat)
    (hn : key_last ≠ 0)
    (hret : (inclusive_scan_by_key rt policy key_first key_last value_first value_result
        key_compare_op scan_op s).1 = Outcome.returned r) : rt.healthy := by
  by_cases h1 : rt.sizing_status = hipSuccess
  · by_cases h2 : rt.malloc_error = hipSuccess
    · have hb := rt.buffer_valid h2
      by_cases h3 : rt.scan_status = hipSuccess
      · by_cases h4 : rt.free_error = hipSuccess
        · exact ⟨h1, h2, h3, h4⟩
        · simp [inclusive_scan_by_key, rocprim.inclusive_scan_by_key, throw_on_error, get_memory_buffer,
            hipGetLastError, return_memory_buffer, State.log, hn, h1, h2, h3, h4, hb] at hret
      · simp [inclusive_scan_by_key, rocprim.inclusive_scan_by_key, throw_on_error, get_memory_buffer,
            hipGetLastError, return_memory_buffer, State.log, hn, h1, h2, h3, hb] at hret
    · simp [inclusive_scan_by_key, rocprim.inclusive_scan_by_key, throw_on_error, get_memory_buffer,
            hipGetLastError, return_memory_buffer, State.log, hn, h1, h2] at hret
  · simp [inclusive_scan_by_key, rocprim.inclusive_scan_by_key, throw_on_error, get_memory_buffer,
            hipGetLastError, return_memory_buffer, State.log, hn, h1] at hret

end hip_rocprim.__scan_by_key
end thrust

namespace thrust

theorem segment_head_le {K : Type} (equiv : K → K → Bool) (key : Nat → K) (p : Nat) :
    segment_head equiv key p ≤ p := by
  induction p with
  | zero => simp [segment_head]
  | succ p ih =>
    simp only [segment_head]
    split
    · omega
    · exact Nat.le_refl _

theorem segment_head_open {K : Type} (equiv : K → K → Bool) (key : Nat → K) (p : Nat)
    (h : p = 0 ∨ equiv (key (p - 1)) (key p) = false) : segment_head equiv key p = p := by
  cases p with
  | zero => rfl
  | succ p =>
    have h2 : equiv (key p) (key (p + 1)) = false := by
      cases h with
      | inl h => omega
      | inr h => simpa using h
    simp [segment_head, h2]

theorem segment_head_step {K : Type} (equiv : K → K → Bool) (key : Nat → K) (p : Nat)
    (h : equiv (key p) (key (p + 1)) = true) :
    segment_head equiv key (p + 1) = segment_head equiv key p := by
  simp [segment_head, h]

theorem segmented_inclusive_open {K V : Type} (op : V → V → V) (equiv : K → K → Bool)
    (key : Nat → K) (val : Nat → V) (p : Nat)
    (h : p = 0 ∨ equiv (key (p - 1)) (key p) = false) :
    segmented_inclusive op equiv key val p = val p := by
  simp [segmented_inclusive, segment_head_open equiv key p h]

theorem segmented_inclusive_step {K V : Type} (op : V → V → V) (equiv : K → K → Bool)
    (key : Nat → K) (val : Nat → V) (p : Nat) (h : equiv (key p) (key (p + 1)) = true) :
    segmented_inclusive op equiv key val (p + 1)
      = op (segmented_inclusive op equiv key val p) (val (p + 1)) := by
  have hle := segment_head_le equiv key p
  simp only [segmented_inclusive, segment_head_step equiv key p h]
  have : p + 1 - segment_head equiv key p = (p - segment_head equiv key p) + 1 := by omega
  rw [this, List.range'_concat, List.foldl_append]
  have h3 : segment_head equiv key p + 1 + (p - segment_head equiv key p) = p + 1 := by omega
  simp [h3]

theorem segmented_exclusive_open {K V : Type} (op : V → V → V) (equiv : K → K → Bool)
    (key : Nat → K) (val : Nat → V) (init : V) (p : Nat)
    (h : p = 0 ∨ equiv (key (p - 1)) (key p) = false) :
    segmented_exclusive op equiv key val init p = init := by
  simp [segmented_exclusive, segment_head_open equiv key p h]

theorem segmented_exclusive_step {K V : Type} (op : V → V → V) (equiv : K → K → Bool)
    (key : Nat → K) (val : Nat → V) (init : V) (p : Nat)
    (h : equiv (key p) (key (p + 1)) = true) :
    segmented_exclusive op equiv key val init (p + 1)
      = op (segmented_exclusive op equiv key val init p) (val p) := by
  have hle := segment_head_le equiv key p
  simp only [segmented_exclusive, segment_head_step equiv key p h]
  have : p + 1 - segment_head equiv key p = (p - segment_head equiv key p) + 1 := by omega
  rw [this, List.range'_concat, List.foldl_append]
  have h3 : segment_head equiv key p + (p - segment_head equiv key p) = p := by omega
  simp [h3]

end thrust

namespace thrust.hip_rocprim.__scan_by_key

theorem exclusive_healthy {K V O I : Type} [Convertible V O] [Convertible I V] (rt : Runtime)
    (policy : Policy) (key_first : Nat → K) (key_last : Nat) (value_first : Nat → V)
    (value_result : Nat) (init : I) (key_compare_op : K → K → Bool) (scan_op : V → V → V)
    (s : State O) (hn : key_last ≠ 0) (hrt : rt.healthy) :
    exclusive_scan_by_key rt policy key_first key_last value_first value_result init
        key_compare_op scan_op s
      = (Outcome.returned (value_result + key_last),
          { mem := fun a => if value_result ≤ a ∧ a < value_result + key_last then
              Convertible.conv (segmented_exclusive scan_op key_compare_op key_first value_first
                (Convertible.conv init) (a - value_result)) else s.mem a
            written := s.written ++ (List.range key_last).map (fun p => value_result + p)
            trace := s.trace ++
              [Event.sizing_pass key_last,
               Event.get_memory_buffer
                 (rocprim.align_size rt.storage_bytes rocprim.default_alignment) rt.buffer,
               Event.scan_pass rt.buffer
                 (rocprim.align_size rt.storage_bytes rocprim.default_alignment) key_last,
               Event.return_memory_buffer rt.buffer]
            last_error := hipSuccess }) := by
  obtain ⟨h1, h2, h3, h4⟩ := hrt
  have hb := rt.buffer_valid h2
  simp [exclusive_scan_by_key, rocprim.exclusive_scan_by_key, throw_on_error, get_memory_buffer,
    hipGetLastError, return_memory_buffer, State.log, hn, h1, h2, h3, h4, hb,
    State.write_range_eq]

theorem exclusive_returned {K V O I : Type} [Convertible V O] [Convertible I V] (rt : Runtime)
    (policy : Policy) (key_first : Nat → K) (key_last : Nat) (value_first : Nat → V)
    (value_result : Nat) (init : I) (key_compare_op : K → K → Bool) (scan_op : V → V → V)
    (s : State O) (r : Nat) (hn : key_last ≠ 0)
    (hret : (exclusive_scan_by_key rt policy key_first key_last value_first value_result init
        key_compare_op scan_op s).1 = Outcome.returned r) : rt.healthy := by
  by_cases h1 : rt.sizing_status = hipSuccess
  · by_cases h2 : rt.malloc_error = hipSuccess
    · have hb := rt.buffer_valid h2
      by_cases h3 : rt.scan_status = hipSuccess
      · by_cases h4 : rt.free_error = hipSuccess
        · exact ⟨h1, h2, h3, h4⟩
        · simp [exclusive_scan_by_key, rocprim.exclusive_scan_by_key, throw_on_error,
            get_memory_buffer, hipGetLastError, return_memory_buffer, State.log, hn, h1, h2, h3,
            h4, hb] at hret
      · simp [exclusive_scan_by_key, rocprim.exclusive_scan_by_key, throw_on_error,
          get_memory_buffer, hipGetLastError, return_memory_buffer, State.log, hn, h1, h2, h3,
          hb] at hret
    · simp [exclusive_scan_by_key, rocprim.exclusive_scan_by_key, throw_on_error,
        get_memory_buffer, hipGetLastError, return_memory_buffer, State.log, hn, h1, h2] at hret
  · simp [exclusive_scan_by_key, rocprim.exclusive_scan_by_key, throw_on_error,
      get_memory_buffer, hipGetLastError, return_memory_buffer, State.log, hn, h1] at hret

end thrust.hip_rocprim.__scan_by_key

namespace thrust
open hip_rocprim

/-- C1. Inclusive scan by key: after a call of the engine that returns, every
output position `p < N` holds `val p` when `p` opens a segment (`p = 0` or
`equiv (key (p-1)) (key p)` false) and `op (out (p-1)) (val p)` otherwise, for
every equivalence and every operator; only adjacent keys are compared. -/
theorem inclusive_scan_by_key_postcondition {K V : Type} (rt : Runtime) (policy : Policy)
    (key : Nat → K) (N : Nat) (val : Nat → V) (value_result : Nat) (equiv : K → K → Bool)
    (op : V → V → V) (s : State V) (r : Nat)
    (hret : (__scan_by_key.inclusive_scan_by_key rt policy key N val value_result equiv op s).1
      = Outcome.returned r)
    (p : Nat) (hp : p < N) :
    (__scan_by_key.inclusive_scan_by_key rt policy key N val value_result equiv op s).2.mem
        (value_result + p)
      = if p = 0 ∨ equiv (key (p - 1)) (key p) = false then val p
        else op ((__scan_by_key.inclusive_scan_by_key rt policy key N val value_result equiv op
          s).2.mem (value_result + (p - 1))) (val p) := by
  have hn : N ≠ 0 := by omega
  have hrt := __scan_by_key.inclusive_returned rt policy key N val value_result equiv op s r hn hret
  rw [__scan_by_key.inclusive_healthy rt policy key N val value_result equiv op s hn hrt]
  have h1 : value_result ≤ value_result + p ∧ value_result + p < value_result + N := by omega
  have h2 : value_result ≤ value_result + (p - 1) ∧
      value_result + (p - 1) < value_result + N := by omega
  simp only [h1, h2, and_self, if_true, Nat.add_sub_cancel_left, Convertible.conv]
  split
  · next h => exact segmented_inclusive_open op equiv key val p h
  · next h =>
    have hp0 : p ≠ 0 := fun h0 => h (Or.inl h0)
    obtain ⟨q, rfl⟩ := Nat.exists_eq_succ_of_ne_zero hp0
    have hq : equiv (key q) (key (q + 1)) = true := by
      cases hb : equiv (key q) (key (q + 1)) with
      | true => rfl
      | false => exact absurd (Or.inr (by simpa using hb)) h
    simpa using segmented_inclusive_step op equiv key val q hq

/-- C2. Exclusive scan by key: after a call of the engine that returns, every
output position `p < N` holds `init` when `p` opens a segment (`p = 0` or
`equiv (key (p-1)) (key p)` false), so `init` opens every segment, and
`op (out (p-1)) (val (p-1))` otherwise. -/
theorem exclusive_scan_by_key_postcondition {K V : Type} (rt : Runtime) (policy : Policy)
    (key : Nat → K) (N : Nat) (val : Nat → V) (value_result : Nat) (init : V)
    (equiv : K → K → Bool) (op : V → V → V) (s : State V) (r : Nat)
    (hret : (__scan_by_key.exclusive_scan_by_key rt policy key N val value_result init equiv op
      s).1 = Outcome.returned r)
    (p : Nat) (hp : p < N) :
    (__scan_by_key.exclusive_scan_by_key rt policy key N val value_result init equiv op s).2.mem
        (value_result + p)
      = if p = 0 ∨ equiv (key (p - 1)) (key p) = false then init
        else op ((__scan_by_key.exclusive_scan_by_key rt policy key N val value_result init equiv
          op s).2.mem (value_result + (p - 1))) (val (p - 1)) := by
  have hn : N ≠ 0 := by omega
  have hrt := __scan_by_key.exclusive_returned rt policy key N val value_result init equiv op s r
    hn hret
  rw [__scan_by_key.exclusive_healthy rt policy key N val value_result init equiv op s hn hrt]
  have h1 : value_result ≤ value_result + p ∧ value_result + p < value_result + N := by omega
  have h2 : value_result ≤ value_result + (p - 1) ∧
      value_result + (p - 1) < value_result + N := by omega
  simp only [h1, h2, and_self, if_true, Nat.add_sub_cancel_left, Convertible.conv]
  split
  · next h => exact segmented_exclusive_open op equiv key val init p h
  · next h =>
    have hp0 : p ≠ 0 := fun h0 => h (Or.inl h0)
    obtain ⟨q, rfl⟩ := Nat.exists_eq_succ_of_ne_zero hp0
    have hq : equiv (key q) (key (q + 1)) = true := by
      cases hb : equiv (key q) (key (q + 1)) with
      | true => rfl
      | false => exact absurd (Or.inr (by simpa using hb)) h
    simpa using segmented_exclusive_step op equiv key val init q hq

end thrust

namespace thrust
open hip_rocprim examples

/-- Witness of C1: on keys `[1,1,2,2,2,3]` and values `[1,2,3,4,5,6]` with
`plus` the call returns and the output is `[1,3,3,7,12,6]`; on keys `[1,2,1]`
and values `[10,20,30]` the output is `[10,20,30]`; position 4 continues a
segment and position 2 opens one. -/
theorem inclusive_scan_by_key_postcondition_witness :
    (__scan_by_key.inclusive_scan_by_key runtime_ok policy (of_list [1, 1, 2, 2, 2, 3] 0) 6
        (of_list [1, 2, 3, 4, 5, 6] (0 : Int)) 100 (equal_to Nat) (plus Int) (fresh (0 : Int))).1
      = Outcome.returned 106
    ∧ output (__scan_by_key.inclusive_scan_by_key runtime_ok policy
        (of_list [1, 1, 2, 2, 2, 3] 0) 6 (of_list [1, 2, 3, 4, 5, 6] (0 : Int)) 100
        (equal_to Nat) (plus Int) (fresh (0 : Int))) 100 6 = [1, 3, 3, 7, 12, 6]
    ∧ output (__scan_by_key.inclusive_scan_by_key runtime_ok policy (of_list [1, 2, 1] 0) 3
        (of_list [10, 20, 30] (0 : Int)) 100 (equal_to Nat) (plus Int) (fresh (0 : Int))) 100 3
      = [10, 20, 30]
    ∧ (__scan_by_key.inclusive_scan_by_key runtime_ok policy (of_list [1, 1, 2, 2, 2, 3] 0) 6
        (of_list [1, 2, 3, 4, 5, 6] (0 : Int)) 100 (equal_to Nat) (plus Int) (fresh (0 : Int))).2.mem
        (100 + 4)
      = (if 4 = 0 ∨ equal_to Nat (of_list [1, 1, 2, 2, 2, 3] 0 (4 - 1))
            (of_list [1, 1, 2, 2, 2, 3] 0 4) = false
          then of_list [1, 2, 3, 4, 5, 6] (0 : Int) 4
          else plus Int ((__scan_by_key.inclusive_scan_by_key runtime_ok policy
            (of_list [1, 1, 2, 2, 2, 3] 0) 6 (of_list [1, 2, 3, 4, 5, 6] (0 : Int)) 100
            (equal_to Nat) (plus Int) (fresh (0 : Int))).2.mem (100 + (4 - 1)))
            (of_list [1, 2, 3, 4, 5, 6] (0 : Int) 4)) :=
  ⟨by decide, by decide, by decide,
    inclusive_scan_by_key_postcondition runtime_ok policy (of_list [1, 1, 2, 2, 2, 3] 0) 6
      (of_list [1, 2, 3, 4, 5, 6] (0 : Int)) 100 (equal_to Nat) (plus Int) (fresh (0 : Int)) 106
      (by decide) 4 (by decide)⟩

/-- Witness of C2: on keys `[1,1,2,2,2,3]`, values `[1,2,3,4,5,6]`, `init = 10`
and `plus` the call returns and the output is `[10,11,10,13,17,10]`; position 4
continues a segment. -/
theorem exclusive_scan_by_key_postcondition_witness :
    (__scan_by_key.exclusive_scan_by_key runtime_ok policy (of_list [1, 1, 2, 2, 2, 3] 0) 6
        (of_list [1, 2, 3, 4, 5, 6] (0 : Int)) 100 (10 : Int) (equal_to Nat) (plus Int)
        (fresh (0 : Int))).1 = Outcome.returned 106
    ∧ output (__scan_by_key.exclusive_scan_by_key runtime_ok policy
        (of_list [1, 1, 2, 2, 2, 3] 0) 6 (of_list [1, 2, 3, 4, 5, 6] (0 : Int)) 100 (10 : Int)
        (equal_to Nat) (plus Int) (fresh (0 : Int))) 100 6 = [10, 11, 10, 13, 17, 10]
    ∧ (__scan_by_key.exclusive_scan_by_key runtime_ok policy (of_list [1, 1, 2, 2, 2, 3] 0) 6
        (of_list [1, 2, 3, 4, 5, 6] (0 : Int)) 100 (10 : Int) (equal_to Nat) (plus Int)
        (fresh (0 : Int))).2.mem (100 + 4)
      = (if 4 = 0 ∨ equal_to Nat (of_list [1, 1, 2, 2, 2, 3] 0 (4 - 1))
            (of_list [1, 1, 2, 2, 2, 3] 0 4) = false
          then (10 : Int)
          else plus Int ((__scan_by_key.exclusive_scan_by_key runtime_ok policy
            (of_list [1, 1, 2, 2, 2, 3] 0) 6 (of_list [1, 2, 3, 4, 5, 6] (0 : Int)) 100
            (10 : Int) (equal_to Nat) (plus Int) (fresh (0 : Int))).2.mem (100 + (4 - 1)))
            (of_list [1, 2, 3, 4, 5, 6] (0 : Int) (4 - 1))) :=
  ⟨by decide, by decide,
    exclusive_scan_by_key_postcondition runtime_ok policy (of_list [1, 1, 2, 2, 2, 3] 0) 6
      (of_list [1, 2, 3, 4, 5, 6] (0 : Int)) 100 (10 : Int) (equal_to Nat) (plus Int) (fresh (0 : Int))
      106 (by decide) 4 (by decide)⟩

/-- C3. A call of either engine that returns, on a key range of length `N`,
returns `value_result + N`, and the stores of the call are exactly the `N`
positions `value_result + 0, ..., value_result + (N - 1)`, each once. -/
theorem scan_by_key_returns_end {K V O I : Type} [Convertible V O] [Convertible I V]
    (rt : Runtime) (policy : Policy) (key : Nat → K) (N : Nat) (val : Nat → V)
    (value_result : Nat) (init : I) (equiv : K → K → Bool) (op : V → V → V) (s : State O)
    (r : Nat) :
    ((__scan_by_key.inclusive_scan_by_key rt policy key N val value_result equiv op s).1
        = Outcome.returned r →
      r = value_result + N ∧
      (__scan_by_key.inclusive_scan_by_key rt policy key N val value_result equiv op s).2.written
        = s.written ++ (List.range N).map (fun p => value_result + p))
    ∧ ((__scan_by_key.exclusive_scan_by_key rt policy key N val value_result init equiv op s).1
        = Outcome.returned r →
      r = value_result + N ∧
      (__scan_by_key.exclusive_scan_by_key rt policy key N val value_result init equiv op
        s).2.written = s.written ++ (List.range N).map (fun p => value_result + p)) := by
  constructor
  · intro hret
    by_cases hn : N = 0
    · subst hn
      simp [__scan_by_key.inclusive_scan_by_key] at hret ⊢
      exact hret.symm
    · have hrt := __scan_by_key.inclusive_returned rt policy key N val value_result equiv op s r
        hn hret
      rw [__scan_by_key.inclusive_healthy rt policy key N val value_result equiv op s hn hrt]
        at hret ⊢
      simp only [Outcome.returned.injEq] at hret
      exact ⟨hret.symm, rfl⟩
  · intro hret
    by_cases hn : N = 0
    · subst hn
      simp [__scan_by_key.exclusive_scan_by_key] at hret ⊢
      exact hret.symm
    · have hrt := __scan_by_key.exclusive_returned rt policy key N val value_result init equiv
        op s r hn hret
      rw [__scan_by_key.exclusive_healthy rt policy key N val value_result init equiv op s hn
        hrt] at hret ⊢
      simp only [Outcome.returned.injEq] at hret
      exact ⟨hret.symm, rfl⟩

/-- Witness of C3: both engines on six keys with output iterator 100 return 106
and store at 100, ..., 105. -/
theorem scan_by_key_returns_end_witness :
    ((__scan_by_key.inclusive_scan_by_key runtime_ok policy (of_list [1, 1, 2, 2, 2, 3] 0) 6
        (of_list [1, 2, 3, 4, 5, 6] (0 : Int)) 100 (equal_to Nat) (plus Int) (fresh (0 : Int))).1
      = Outcome.returned 106
    ∧ (__scan_by_key.exclusive_scan_by_key runtime_ok policy (of_list [1, 1, 2, 2, 2, 3] 0) 6
        (of_list [1, 2, 3, 4, 5, 6] (0 : Int)) 100 (10 : Int) (equal_to Nat) (plus Int)
        (fresh (0 : Int))).1 = Outcome.returned 106)
    ∧ (106 = 100 + 6 ∧
      (__scan_by_key.inclusive_scan_by_key runtime_ok policy (of_list [1, 1, 2, 2, 2, 3] 0) 6
        (of_list [1, 2, 3, 4, 5, 6] (0 : Int)) 100 (equal_to Nat) (plus Int)
        (fresh (0 : Int))).2.written
        = (fresh (0 : Int)).written ++ (List.range 6).map (fun p => 100 + p))
    ∧ (106 = 100 + 6 ∧
      (__scan_by_key.exclusive_scan_by_key runtime_ok policy (of_list [1, 1, 2, 2, 2, 3] 0) 6
        (of_list [1, 2, 3, 4, 5, 6] (0 : Int)) 100 (10 : Int) (equal_to Nat) (plus Int)
        (fresh (0 : Int))).2.written
        = (fresh (0 : Int)).written ++ (List.range 6).map (fun p => 100 + p)) :=
  ⟨⟨by decide, by decide⟩,
    (scan_by_key_returns_end runtime_ok policy (of_list [1, 1, 2, 2, 2, 3] 0) 6
      (of_list [1, 2, 3, 4, 5, 6] (0 : Int)) 100 (10 : Int) (equal_to Nat) (plus Int)
      (fresh (0 : Int)) 106).1 (by decide),
    (scan_by_key_returns_end runtime_ok policy (of_list [1, 1, 2, 2, 2, 3] 0) 6
      (of_list [1, 2, 3, 4, 5, 6] (0 : Int)) 100 (10 : Int) (equal_to Nat) (plus Int)
      (fresh (0 : Int)) 106).2 (by decide)⟩

end thrust

namespace thrust
open hip_rocprim examples

/-- C4. Empty input: on a key range of length 0 both engines return
`value_result` and leave the state as it was: nothing is stored, no sizing pass
and no scan pass runs and no workspace is acquired, for every runtime, policy,
equivalence, operator and `init`. -/
theorem scan_by_key_empty {K V O I : Type} [Convertible V O] [Convertible I V] (rt : Runtime)
    (policy : Policy) (key : Nat → K) (val : Nat → V) (value_result : Nat) (init : I)
    (equiv : K → K → Bool) (op : V → V → V) (s : State O) :
    __scan_by_key.inclusive_scan_by_key rt policy key 0 val value_result equiv op s
      = (Outcome.returned value_result, s)
    ∧ __scan_by_key.exclusive_scan_by_key rt policy key 0 val value_result init equiv op s
      = (Outcome.returned value_result, s) := by
  constructor
  · simp [__scan_by_key.inclusive_scan_by_key]
  · simp [__scan_by_key.exclusive_scan_by_key]

/-- C5, the code at the failing input. When the scan pass on the acquired
workspace reports the device error 719, both engines throw with the events
sizing pass, acquisition, scan pass: the acquired region 4096 is never passed to
`return_memory_buffer`. The same holds when the error check after the
acquisition fails. -/
theorem workspace_not_released_on_failure :
    (__scan_by_key.inclusive_scan_by_key runtime_scan_fault policy
        (of_list [1, 1, 2, 2, 2, 3] 0) 6 (of_list [1, 2, 3, 4, 5, 6] (0 : Int)) 100
        (equal_to Nat) (plus Int) (fresh (0 : Int))).1
      = Outcome.thrown ⟨719, "scan_by_key failed on 2nd step"⟩
    ∧ (__scan_by_key.inclusive_scan_by_key runtime_scan_fault policy
        (of_list [1, 1, 2, 2, 2, 3] 0) 6 (of_list [1, 2, 3, 4, 5, 6] (0 : Int)) 100
        (equal_to Nat) (plus Int) (fresh (0 : Int))).2.trace
      = [Event.sizing_pass 6, Event.get_memory_buffer 1024 4096, Event.scan_pass 4096 1024 6]
    ∧ (__scan_by_key.exclusive_scan_by_key runtime_scan_fault policy
        (of_list [1, 1, 2, 2, 2, 3] 0) 6 (of_list [1, 2, 3, 4, 5, 6] (0 : Int)) 100 (10 : Int)
        (equal_to Nat) (plus Int) (fresh (0 : Int))).1
      = Outcome.thrown ⟨719, "scan_by_key failed on 2nd step"⟩
    ∧ (__scan_by_key.exclusive_scan_by_key runtime_scan_fault policy
        (of_list [1, 1, 2, 2, 2, 3] 0) 6 (of_list [1, 2, 3, 4, 5, 6] (0 : Int)) 100 (10 : Int)
        (equal_to Nat) (plus Int) (fresh (0 : Int))).2.trace
      = [Event.sizing_pass 6, Event.get_memory_buffer 1024 4096, Event.scan_pass 4096 1024 6]
    ∧ (__scan_by_key.inclusive_scan_by_key runtime_malloc_fault policy
        (of_list [1, 1, 2, 2, 2, 3] 0) 6 (of_list [1, 2, 3, 4, 5, 6] (0 : Int)) 100
        (equal_to Nat) (plus Int) (fresh (0 : Int))).1
      = Outcome.thrown ⟨2, "scan_by_key failed to get memory buffer"⟩
    ∧ (__scan_by_key.inclusive_scan_by_key runtime_malloc_fault policy
        (of_list [1, 1, 2, 2, 2, 3] 0) 6 (of_list [1, 2, 3, 4, 5, 6] (0 : Int)) 100
        (equal_to Nat) (plus Int) (fresh (0 : Int))).2.trace
      = [Event.sizing_pass 6, Event.get_memory_buffer 1024 4096] := by
  refine ⟨by decide, by decide, by decide, by decide, by decide, by decide⟩

/-- C6. Workspace balanced on normal return: for `N > 0` and a runtime in which
no step reports an error, both engines return `value_result + N`, and the
events of the call are, in this order: the sizing pass, the acquisition of one
region, the scan pass on that region, the release of that region. -/
theorem workspace_balanced_on_return {K V O I : Type} [Convertible V O] [Convertible I V]
    (rt : Runtime) (policy : Policy) (key : Nat → K) (N : Nat) (val : Nat → V)
    (value_result : Nat) (init : I) (equiv : K → K → Bool) (op : V → V → V) (s : State O)
    (hN : 0 < N) (hrt : rt.healthy) :
    ((__scan_by_key.inclusive_scan_by_key rt policy key N val value_result equiv op s).1
        = Outcome.returned (value_result + N)
      ∧ (__scan_by_key.inclusive_scan_by_key rt policy key N val value_result equiv op s).2.trace
        = s.trace ++
          [Event.sizing_pass N,
           Event.get_memory_buffer
             (rocprim.align_size rt.storage_bytes rocprim.default_alignment) rt.buffer,
           Event.scan_pass rt.buffer
             (rocprim.align_size rt.storage_bytes rocprim.default_alignment) N,
           Event.return_memory_buffer rt.buffer])
    ∧ ((__scan_by_key.exclusive_scan_by_key rt policy key N val value_result init equiv op s).1
        = Outcome.returned (value_result + N)
      ∧ (__scan_by_key.exclusive_scan_by_key rt policy key N val value_result init equiv op
          s).2.trace
        = s.trace ++
          [Event.sizing_pass N,
           Event.get_memory_buffer
             (rocprim.align_size rt.storage_bytes rocprim.default_alignment) rt.buffer,
           Event.scan_pass rt.buffer
             (rocprim.align_size rt.storage_bytes rocprim.default_alignment) N,
           Event.return_memory_buffer rt.buffer]) := by
  have hn : N ≠ 0 := by omega
  rw [__scan_by_key.inclusive_healthy rt policy key N val value_result equiv op s hn hrt,
    __scan_by_key.exclusive_healthy rt policy key N val value_result init equiv op s hn hrt]
  exact ⟨⟨rfl, rfl⟩, rfl, rfl⟩

/-- Witness of C6: six keys, a runtime without errors that needs 1000 bytes and
hands out the region 4096: the region of 1024 bytes is acquired once, scanned
on and released once. -/
theorem workspace_balanced_on_return_witness :
    (0 < 6 ∧ runtime_ok.healthy)
    ∧ (__scan_by_key.inclusive_scan_by_key runtime_ok policy (of_list [1, 1, 2, 2, 2, 3] 0) 6
        (of_list [1, 2, 3, 4, 5, 6] (0 : Int)) 100 (equal_to Nat) (plus Int)
        (fresh (0 : Int))).2.trace
      = [Event.sizing_pass 6, Event.get_memory_buffer 1024 4096, Event.scan_pass 4096 1024 6,
          Event.return_memory_buffer 4096]
    ∧ (__scan_by_key.exclusive_scan_by_key runtime_ok policy (of_list [1, 1, 2, 2, 2, 3] 0) 6
        (of_list [1, 2, 3, 4, 5, 6] (0 : Int)) 100 (10 : Int) (equal_to Nat) (plus Int)
        (fresh (0 : Int))).2.trace
      = [Event.sizing_pass 6, Event.get_memory_buffer 1024 4096, Event.scan_pass 4096 1024 6,
          Event.return_memory_buffer 4096] :=
  ⟨⟨by decide, by decide⟩,
    (workspace_balanced_on_return runtime_ok policy (of_list [1, 1, 2, 2, 2, 3] 0) 6
      (of_list [1, 2, 3, 4, 5, 6] (0 : Int)) 100 (10 : Int) (equal_to Nat) (plus Int)
      (fresh (0 : Int)) (by decide) (by decide)).1.2,
    (workspace_balanced_on_return runtime_ok policy (of_list [1, 1, 2, 2, 2, 3] 0) 6
      (of_list [1, 2, 3, 4, 5, 6] (0 : Int)) 100 (10 : Int) (equal_to Nat) (plus Int)
      (fresh (0 : Int)) (by decide) (by decide)).2.2⟩

end thrust

namespace thrust
open hip_rocprim examples

theorem sequential.inclusive_loop_eq {K V O : Type} [Convertible V O] (key : Nat → K)
    (val : Nat → V) (pred : K → K → Bool) (op : V → V → V) (base : Nat) (n : Nat) :
    ∀ (j : Nat) (s : State O),
      sequential.inclusive_loop key val pred op n (j + 1) (base + (j + 1)) (key j)
          (segmented_inclusive op pred key val j) s
        = (base + (j + 1) + n,
            (List.range' (j + 1) n).foldl (fun st p => st.write (base + p)
              (Convertible.conv (segmented_inclusive op pred key val p))) s) := by
  induction n with
  | zero => intro j s; simp [sequential.inclusive_loop]
  | succ n ih =>
    intro j s
    have hv : (if pred (key j) (key (j + 1)) then
          op (segmented_inclusive op pred key val j) (val (j + 1)) else val (j + 1))
        = segmented_inclusive op pred key val (j + 1) := by
      cases hb : pred (key j) (key (j + 1)) with
      | true => simp [segmented_inclusive_step op pred key val j hb]
      | false =>
        simp [segmented_inclusive_open op pred key val (j + 1) (Or.inr (by simpa using hb))]
    simp only [sequential.inclusive_loop, hv]
    have := ih (j + 1) (s.write (base + (j + 1))
      (Convertible.conv (segmented_inclusive op pred key val (j + 1))))
    rw [show base + (j + 1) + 1 = base + (j + 1 + 1) by omega, this]
    simp only [List.range'_succ, List.foldl_cons, Prod.mk.injEq, and_true]
    omega

theorem sequential.inclusive_scan_by_key_eq {K V O : Type} [Convertible V O] (key : Nat → K)
    (N : Nat) (val : Nat → V) (result : Nat) (pred : K → K → Bool) (op : V → V → V)
    (s : State O) :
    sequential.inclusive_scan_by_key key N val result pred op s
      = (result + N, s.write_range result N (fun p =>
          Convertible.conv (segmented_inclusive op pred key val p))) := by
  cases N with
  | zero => simp [sequential.inclusive_scan_by_key, State.write_range]
  | succ n =>
    have h0 : val 0 = segmented_inclusive op pred key val 0 :=
      (segmented_inclusive_open op pred key val 0 (Or.inl rfl)).symm
    have := sequential.inclusive_loop_eq key val pred op result n 0
      (s.write result (Convertible.conv (segmented_inclusive op pred key val 0)))
    simp only [Nat.zero_add] at this
    simp only [sequential.inclusive_scan_by_key, Nat.add_one_ne_zero, if_false,
      Nat.add_sub_cancel]
    rw [h0, this]
    simp only [State.write_range, List.range_eq_range', List.range'_succ, List.foldl_cons,
      Nat.add_zero, Nat.zero_add, Prod.mk.injEq, and_true]
    omega

theorem sequential.exclusive_loop_eq {K V O : Type} [Convertible V O] (key : Nat → K)
    (val : Nat → V) (init : V) (pred : K → K → Bool) (op : V → V → V) (base : Nat) (n : Nat) :
    ∀ (j : Nat) (s : State O),
      sequential.exclusive_loop key val init pred op n (j + 1) (base + (j + 1)) (key j)
          (op (segmented_exclusive op pred key val init j) (val j)) s
        = (base + (j + 1) + n,
            (List.range' (j + 1) n).foldl (fun st p => st.write (base + p)
              (Convertible.conv (segmented_exclusive op pred key val init p))) s) := by
  induction n with
  | zero => intro j s; simp [sequential.exclusive_loop]
  | succ n ih =>
    intro j s
    have hv : (if pred (key j) (key (j + 1)) then
          op (segmented_exclusive op pred key val init j) (val j) else init)
        = segmented_exclusive op pred key val init (j + 1) := by
      cases hb : pred (key j) (key (j + 1)) with
      | true => simp [segmented_exclusive_step op pred key val init j hb]
      | false =>
        simp [segmented_exclusive_open op pred key val init (j + 1)
          (Or.inr (by simpa using hb))]
    simp only [sequential.exclusive_loop, hv]
    have := ih (j + 1) (s.write (base + (j + 1))
      (Convertible.conv (segmented_exclusive op pred key val init (j + 1))))
    rw [show base + (j + 1) + 1 = base + (j + 1 + 1) by omega, this]
    simp only [List.range'_succ, List.foldl_cons, Prod.mk.injEq, and_true]
    omega

theorem sequential.exclusive_scan_by_key_eq {K V O I : Type} [Convertible V O]
    [Convertible I V] (key : Nat → K) (N : Nat) (val : Nat → V) (result : Nat) (init : I)
    (pred : K → K → Bool) (op : V → V → V) (s : State O) :
    sequential.exclusive_scan_by_key key N val result init pred op s
      = (result + N, s.write_range result N (fun p =>
          Convertible.conv (segmented_exclusive op pred key val (Convertible.conv init) p))) := by
  cases N with
  | zero => simp [sequential.exclusive_scan_by_key, State.write_range]
  | succ n =>
    have h0 : (Convertible.conv init : V)
        = segmented_exclusive op pred key val (Convertible.conv init) 0 :=
      (segmented_exclusive_open op pred key val (Convertible.conv init) 0 (Or.inl rfl)).symm
    have := sequential.exclusive_loop_eq key val (Convertible.conv init) pred op result n 0
      (s.write result (Convertible.conv
        (segmented_exclusive op pred key val (Convertible.conv init) 0)))
    simp only [Nat.zero_add] at this
    simp only [sequential.exclusive_scan_by_key, Nat.add_one_ne_zero, if_false,
      Nat.add_sub_cancel]
    rw [← h0] at this
    rw [this]
    simp only [State.write_range, List.range_eq_range', List.range'_succ, List.foldl_cons,
      Nat.add_zero, Nat.zero_add, Prod.mk.injEq]
    rw [← h0]
    exact ⟨by omega, rfl⟩

end thrust

namespace thrust
open hip_rocprim examples

/-- C7. Device path equals sequential fallback: whenever the device branch of the
entry point returns, it returns the same iterator as the sequential branch,
leaves the same output memory and has stored at the same positions, for the
inclusive and for the exclusive scan and for every operator (associative or
not: the device scan is the left fold of spec 4.3). -/
theorem device_path_eq_sequential {K V O I : Type} [Convertible V O] [Convertible I V]
    (rt : Runtime) (policy : Policy) (key : Nat → K) (N : Nat) (val : Nat → V)
    (value_result : Nat) (init : I) (equiv : K → K → Bool) (op : V → V → V) (s : State O)
    (r : Nat) :
    ((hip_rocprim.inclusive_scan_by_key true rt policy key N val value_result equiv op s).1
        = Outcome.returned r →
      (hip_rocprim.inclusive_scan_by_key true rt policy key N val value_result equiv op s).1
        = (hip_rocprim.inclusive_scan_by_key false rt policy key N val value_result equiv op s).1
      ∧ (hip_rocprim.inclusive_scan_by_key true rt policy key N val value_result equiv op
          s).2.mem
        = (hip_rocprim.inclusive_scan_by_key false rt policy key N val value_result equiv op
          s).2.mem
      ∧ (hip_rocprim.inclusive_scan_by_key true rt policy key N val value_result equiv op
          s).2.written
        = (hip_rocprim.inclusive_scan_by_key false rt policy key N val value_result equiv op
          s).2.written)
    ∧ ((hip_rocprim.exclusive_scan_by_key true rt policy key N val value_result init equiv op
          s).1 = Outcome.returned r →
      (hip_rocprim.exclusive_scan_by_key true rt policy key N val value_result init equiv op s).1
        = (hip_rocprim.exclusive_scan_by_key false rt policy key N val value_result init equiv
          op s).1
      ∧ (hip_rocprim.exclusive_scan_by_key true rt policy key N val value_result init equiv op
          s).2.mem
        = (hip_rocprim.exclusive_scan_by_key false rt policy key N val value_result init equiv
          op s).2.mem
      ∧ (hip_rocprim.exclusive_scan_by_key true rt policy key N val value_result init equiv op
          s).2.written
        = (hip_rocprim.exclusive_scan_by_key false rt policy key N val value_result init equiv
          op s).2.written) := by
  constructor
  · intro hret
    have hseq : hip_rocprim.inclusive_scan_by_key false rt policy key N val value_result equiv
        op s = (Outcome.returned (value_result + N), s.write_range value_result N (fun p =>
          Convertible.conv (segmented_inclusive op equiv key val p))) := by
      simp [hip_rocprim.inclusive_scan_by_key, thrust.inclusive_scan_by_key,
        sequential.inclusive_scan_by_key_eq]
    have hdev : hip_rocprim.inclusive_scan_by_key true rt policy key N val value_result equiv
        op s = __scan_by_key.inclusive_scan_by_key rt policy key N val value_result equiv op s := by
      simp [hip_rocprim.inclusive_scan_by_key]
    rw [hdev] at hret ⊢
    rw [hseq, State.write_range_eq]
    by_cases hn : N = 0
    · subst hn
      simp only [__scan_by_key.inclusive_scan_by_key, if_true, Nat.add_zero, List.range_zero,
        List.map_nil, List.append_nil, true_and]
      refine ⟨?_, trivial⟩
      funext a
      have : ¬ (value_result ≤ a ∧ a < value_result) := by omega
      simp [this]
    · have hrt := __scan_by_key.inclusive_returned rt policy key N val value_result equiv op s r
        hn hret
      rw [__scan_by_key.inclusive_healthy rt policy key N val value_result equiv op s hn hrt]
      exact ⟨rfl, rfl, rfl⟩
  · intro hret
    have hseq : hip_rocprim.exclusive_scan_by_key false rt policy key N val value_result init
        equiv op s = (Outcome.returned (value_result + N), s.write_range value_result N
          (fun p => Convertible.conv
            (segmented_exclusive op equiv key val (Convertible.conv init) p))) := by
      simp [hip_rocprim.exclusive_scan_by_key, thrust.exclusive_scan_by_key,
        sequential.exclusive_scan_by_key_eq]
    have hdev : hip_rocprim.exclusive_scan_by_key true rt policy key N val value_result init
        equiv op s = __scan_by_key.exclusive_scan_by_key rt policy key N val value_result init
          equiv op s := by
      simp [hip_rocprim.exclusive_scan_by_key]
    rw [hdev] at hret ⊢
    rw [hseq, State.write_range_eq]
    by_cases hn : N = 0
    · subst hn
      simp only [__scan_by_key.exclusive_scan_by_key, if_true, Nat.add_zero, List.range_zero,
        List.map_nil, List.append_nil, true_and]
      refine ⟨?_, trivial⟩
      funext a
      have : ¬ (value_result ≤ a ∧ a < value_result) := by omega
      simp [this]
    · have hrt := __scan_by_key.exclusive_returned rt policy key N val value_result init equiv
        op s r hn hret
      rw [__scan_by_key.exclusive_healthy rt policy key N val value_result init equiv op s hn
        hrt]
      exact ⟨rfl, rfl, rfl⟩

end thrust

namespace thrust
open hip_rocprim examples

/-- Witness of C7: on six keys and a runtime without errors the device branch
returns 106, as the sequential branch does, with the same output memory. -/
theorem device_path_eq_sequential_witness :
    (hip_rocprim.inclusive_scan_by_key true runtime_ok policy (of_list [1, 1, 2, 2, 2, 3] 0) 6
        (of_list [1, 2, 3, 4, 5, 6] (0 : Int)) 100 (equal_to Nat) (plus Int) (fresh (0 : Int))).1
      = Outcome.returned 106
    ∧ output (hip_rocprim.inclusive_scan_by_key false runtime_ok policy
        (of_list [1, 1, 2, 2, 2, 3] 0) 6 (of_list [1, 2, 3, 4, 5, 6] (0 : Int)) 100
        (equal_to Nat) (plus Int) (fresh (0 : Int))) 100 6 = [1, 3, 3, 7, 12, 6]
    ∧ ((hip_rocprim.inclusive_scan_by_key true runtime_ok policy (of_list [1, 1, 2, 2, 2, 3] 0)
          6 (of_list [1, 2, 3, 4, 5, 6] (0 : Int)) 100 (equal_to Nat) (plus Int)
          (fresh (0 : Int))).1
        = (hip_rocprim.inclusive_scan_by_key false runtime_ok policy
          (of_list [1, 1, 2, 2, 2, 3] 0) 6 (of_list [1, 2, 3, 4, 5, 6] (0 : Int)) 100
          (equal_to Nat) (plus Int) (fresh (0 : Int))).1
      ∧ (hip_rocprim.inclusive_scan_by_key true runtime_ok policy (of_list [1, 1, 2, 2, 2, 3] 0)
          6 (of_list [1, 2, 3, 4, 5, 6] (0 : Int)) 100 (equal_to Nat) (plus Int)
          (fresh (0 : Int))).2.mem
        = (hip_rocprim.inclusive_scan_by_key false runtime_ok policy
          (of_list [1, 1, 2, 2, 2, 3] 0) 6 (of_list [1, 2, 3, 4, 5, 6] (0 : Int)) 100
          (equal_to Nat) (plus Int) (fresh (0 : Int))).2.mem
      ∧ (hip_rocprim.inclusive_scan_by_key true runtime_ok policy (of_list [1, 1, 2, 2, 2, 3] 0)
          6 (of_list [1, 2, 3, 4, 5, 6] (0 : Int)) 100 (equal_to Nat) (plus Int)
          (fresh (0 : Int))).2.written
        = (hip_rocprim.inclusive_scan_by_key false runtime_ok policy
          (of_list [1, 1, 2, 2, 2, 3] 0) 6 (of_list [1, 2, 3, 4, 5, 6] (0 : Int)) 100
          (equal_to Nat) (plus Int) (fresh (0 : Int))).2.written)
    ∧ (hip_rocprim.exclusive_scan_by_key true runtime_ok policy (of_list [1, 1, 2, 2, 2, 3] 0) 6
        (of_list [1, 2, 3, 4, 5, 6] (0 : Int)) 100 (10 : Int) (equal_to Nat) (plus Int)
        (fresh (0 : Int))).2.mem
      = (hip_rocprim.exclusive_scan_by_key false runtime_ok policy
        (of_list [1, 1, 2, 2, 2, 3] 0) 6 (of_list [1, 2, 3, 4, 5, 6] (0 : Int)) 100 (10 : Int)
        (equal_to Nat) (plus Int) (fresh (0 : Int))).2.mem :=
  ⟨by decide, by decide,
    (device_path_eq_sequential runtime_ok policy (of_list [1, 1, 2, 2, 2, 3] 0) 6
      (of_list [1, 2, 3, 4, 5, 6] (0 : Int)) 100 (10 : Int) (equal_to Nat) (plus Int)
      (fresh (0 : Int)) 106).1 (by decide),
    ((device_path_eq_sequential runtime_ok policy (of_list [1, 1, 2, 2, 2, 3] 0) 6
      (of_list [1, 2, 3, 4, 5, 6] (0 : Int)) 100 (10 : Int) (equal_to Nat) (plus Int)
      (fresh (0 : Int)) 106).2 (by decide)).2.1⟩

/-- C8 as stated fails. With values `[1/2, 1/2]` of a fractional type and an
output sequence of `int`, the overloads add in `int` (the element type of the
output) and give `[0, 0]`; the full overload with `plus` on the value type
gives `[0, 1]`. -/
theorem inclusive_facade_defaults_counterexample :
    output (hip_rocprim.inclusive_scan_by_key_pred true runtime_ok policy (of_list [1, 1] 0) 2
        (of_list [(1 / 2 : ℚ), 1 / 2] 0) 100 (equal_to Nat) (fresh (0 : Int))) 100 2 = [0, 0]
    ∧ output (hip_rocprim.inclusive_scan_by_key_default true runtime_ok policy
        (of_list [1, 1] 0) 2 (of_list [(1 / 2 : ℚ), 1 / 2] 0) 100 (fresh (0 : Int))) 100 2
      = [0, 0]
    ∧ output (hip_rocprim.inclusive_scan_by_key true runtime_ok policy (of_list [1, 1] 0) 2
        (of_list [(1 / 2 : ℚ), 1 / 2] 0) 100 (equal_to Nat) (plus ℚ) (fresh (0 : Int))) 100 2
      = [0, 1]
    ∧ (hip_rocprim.inclusive_scan_by_key_pred true runtime_ok policy (of_list [1, 1] 0) 2
        (of_list [(1 / 2 : ℚ), 1 / 2] 0) 100 (equal_to Nat) (fresh (0 : Int))).2.mem 101
      ≠ (hip_rocprim.inclusive_scan_by_key true runtime_ok policy (of_list [1, 1] 0) 2
        (of_list [(1 / 2 : ℚ), 1 / 2] 0) 100 (equal_to Nat) (plus ℚ) (fresh (0 : Int))).2.mem
        101 := by
  refine ⟨by decide!, by decide!, by decide!, by decide!⟩

/-- C8 as amended. The overload without functors is the full overload with
equality on the key type and `plus` on the element type `O` of the output
sequence; the overload with `binary_pred` only is the full overload with that
predicate and `plus` on `O`. When the output sequence has the element type of
the value sequence this operator is `plus` on the value type. -/
theorem inclusive_facade_defaults {K V O : Type} [DecidableEq K] [Convertible V O]
    [Convertible O V] [Add O] [Add V] (hiprt : Bool) (rt : Runtime) (policy : Policy)
    (key : Nat → K) (N : Nat) (val : Nat → V) (value_result : Nat) (equiv : K → K → Bool)
    (s : State O) (t : State V) :
    (hip_rocprim.inclusive_scan_by_key_default hiprt rt policy key N val value_result s
        = hip_rocprim.inclusive_scan_by_key hiprt rt policy key N val value_result (equal_to K)
          (invoke (plus O)) s
      ∧ hip_rocprim.inclusive_scan_by_key_pred hiprt rt policy key N val value_result equiv s
        = hip_rocprim.inclusive_scan_by_key hiprt rt policy key N val value_result equiv
          (invoke (plus O)) s)
    ∧ (hip_rocprim.inclusive_scan_by_key_default hiprt rt policy key N val value_result t
        = hip_rocprim.inclusive_scan_by_key hiprt rt policy key N val value_result (equal_to K)
          (plus V) t
      ∧ hip_rocprim.inclusive_scan_by_key_pred hiprt rt policy key N val value_result equiv t
        = hip_rocprim.inclusive_scan_by_key hiprt rt policy key N val value_result equiv
          (plus V) t) :=
  ⟨⟨rfl, rfl⟩, rfl, rfl⟩

end thrust

namespace thrust
open hip_rocprim examples

/-- C9 as stated fails. With values `[1/2, 1/2, 1/2]` of a fractional type and
`init = 0` of type `int`, the overloads add in `int` (the type of `init`) and
give `[0, 0, 0]`; the full overload with `plus` on the value type gives
`[0, 1/2, 1]`. -/
theorem exclusive_facade_operator_counterexample :
    output (hip_rocprim.exclusive_scan_by_key_pred true runtime_ok policy (of_list [1, 1, 1] 0)
        3 (of_list [(1 / 2 : ℚ), 1 / 2, 1 / 2] 0) 100 (0 : Int) (equal_to Nat)
        (fresh (0 : ℚ))) 100 3 = [0, 0, 0]
    ∧ output (hip_rocprim.exclusive_scan_by_key_init true runtime_ok policy
        (of_list [1, 1, 1] 0) 3 (of_list [(1 / 2 : ℚ), 1 / 2, 1 / 2] 0) 100 (0 : Int)
        (fresh (0 : ℚ))) 100 3 = [0, 0, 0]
    ∧ output (hip_rocprim.exclusive_scan_by_key true runtime_ok policy (of_list [1, 1, 1] 0) 3
        (of_list [(1 / 2 : ℚ), 1 / 2, 1 / 2] 0) 100 (0 : Int) (equal_to Nat) (plus ℚ)
        (fresh (0 : ℚ))) 100 3 = [0, 1 / 2, 1]
    ∧ (hip_rocprim.exclusive_scan_by_key_pred true runtime_ok policy (of_list [1, 1, 1] 0) 3
        (of_list [(1 / 2 : ℚ), 1 / 2, 1 / 2] 0) 100 (0 : Int) (equal_to Nat)
        (fresh (0 : ℚ))).2.mem 101
      ≠ (hip_rocprim.exclusive_scan_by_key true runtime_ok policy (of_list [1, 1, 1] 0) 3
        (of_list [(1 / 2 : ℚ), 1 / 2, 1 / 2] 0) 100 (0 : Int) (equal_to Nat) (plus ℚ)
        (fresh (0 : ℚ))).2.mem 101 := by
  refine ⟨by decide!, by decide!, by decide!, by decide!⟩

/-- C9 as amended. The overload with `init` only is the full overload with
equality on the key type and `plus` on the type `I` of `init`; the overload with
`init` and `binary_pred` is the full overload with that predicate and `plus` on
`I`. When `init` has the value type this operator is `plus` on the value
type. -/
theorem exclusive_facade_operator {K V O I : Type} [DecidableEq K] [Convertible V O]
    [Convertible I V] [Convertible V I] [Add I] [Add V] (hiprt : Bool) (rt : Runtime)
    (policy : Policy) (key : Nat → K) (N : Nat) (val : Nat → V) (value_result : Nat) (init : I)
    (init_v : V) (equiv : K → K → Bool) (s : State O) :
    (hip_rocprim.exclusive_scan_by_key_init hiprt rt policy key N val value_result init s
        = hip_rocprim.exclusive_scan_by_key hiprt rt policy key N val value_result init
          (equal_to K) (invoke (plus I)) s
      ∧ hip_rocprim.exclusive_scan_by_key_pred hiprt rt policy key N val value_result init
          equiv s
        = hip_rocprim.exclusive_scan_by_key hiprt rt policy key N val value_result init equiv
          (invoke (plus I)) s)
    ∧ (hip_rocprim.exclusive_scan_by_key_init hiprt rt policy key N val value_result init_v s
        = hip_rocprim.exclusive_scan_by_key hiprt rt policy key N val value_result init_v
          (equal_to K) (plus V) s
      ∧ hip_rocprim.exclusive_scan_by_key_pred hiprt rt policy key N val value_result init_v
          equiv s
        = hip_rocprim.exclusive_scan_by_key hiprt rt policy key N val value_result init_v equiv
          (plus V) s) :=
  ⟨⟨rfl, rfl⟩, rfl, rfl⟩

/-- C10 as stated fails. With values `[1/2, 1/2, 1/2]` of a fractional type and
an output sequence of `int`, the overload without `init` seeds with the `int`
zero and adds in `int` and gives `[0, 0, 0]`; the full overload with the zero of
the value type and `plus` on the value type gives `[0, 0, 1]`. -/
theorem exclusive_facade_default_init_counterexample :
    output (hip_rocprim.exclusive_scan_by_key_default true runtime_ok policy
        (of_list [1, 1, 1] 0) 3 (of_list [(1 / 2 : ℚ), 1 / 2, 1 / 2] 0) 100 (fresh (0 : Int)))
        100 3 = [0, 0, 0]
    ∧ output (hip_rocprim.exclusive_scan_by_key true runtime_ok policy (of_list [1, 1, 1] 0) 3
        (of_list [(1 / 2 : ℚ), 1 / 2, 1 / 2] 0) 100 (0 : ℚ) (equal_to Nat) (plus ℚ)
        (fresh (0 : Int))) 100 3 = [0, 0, 1]
    ∧ (hip_rocprim.exclusive_scan_by_key_default true runtime_ok policy (of_list [1, 1, 1] 0) 3
        (of_list [(1 / 2 : ℚ), 1 / 2, 1 / 2] 0) 100 (fresh (0 : Int))).2.mem 102
      ≠ (hip_rocprim.exclusive_scan_by_key true runtime_ok policy (of_list [1, 1, 1] 0) 3
        (of_list [(1 / 2 : ℚ), 1 / 2, 1 / 2] 0) 100 (0 : ℚ) (equal_to Nat) (plus ℚ)
        (fresh (0 : Int))).2.mem 102 := by
  refine ⟨by decide!, by decide!, by decide!⟩

/-- C10 as amended. The overload without `init` is the full overload with
`init` the zero of the element type `O` of the output sequence, equality on the
key type and `plus` on `O`. When the output sequence has the element type of the
value sequence these are the zero of the value type and `plus` on the value
type. -/
theorem exclusive_facade_default_init {K V O : Type} [DecidableEq K] [Convertible V O]
    [Convertible O V] [Add O] [Convertible Int O] [Add V] [Convertible Int V] (hiprt : Bool)
    (rt : Runtime) (policy : Policy) (key : Nat → K) (N : Nat) (val : Nat → V)
    (value_result : Nat) (s : State O) (t : State V) :
    hip_rocprim.exclusive_scan_by_key_default hiprt rt policy key N val value_result s
      = hip_rocprim.exclusive_scan_by_key hiprt rt policy key N val value_result
        (Convertible.conv (0 : Int) : O) (equal_to K) (invoke (plus O)) s
    ∧ hip_rocprim.exclusive_scan_by_key_default hiprt rt policy key N val value_result t
      = hip_rocprim.exclusive_scan_by_key hiprt rt policy key N val value_result
        (Convertible.conv (0 : Int) : V) (equal_to K) (plus V) t :=
  ⟨rfl, rfl⟩

end thrust

namespace thrust

theorem segment_head_of_run {K : Type} (equiv : K → K → Bool) (key : Nat → K) (a : Nat)
    (hopen : a = 0 ∨ equiv (key (a - 1)) (key a) = false) (p : Nat) (hap : a ≤ p)
    (hrun : ∀ q, a < q → q ≤ p → equiv (key (q - 1)) (key q) = true) :
    segment_head equiv key p = a := by
  induction p with
  | zero =>
    have : a = 0 := by omega
    subst this; rfl
  | succ p ih =>
    by_cases hp : a = p + 1
    · subst hp; exact segment_head_open equiv key (p + 1) hopen
    · have h1 : equiv (key p) (key (p + 1)) = true := by
        have := hrun (p + 1) (by omega) (Nat.le_refl _)
        simpa using this
      rw [segment_head_step equiv key p h1]
      exact ih (by omega) (fun q hq1 hq2 => hrun q hq1 (by omega))

theorem segmented_inclusive_congr {K V : Type} (op : V → V → V) (equiv : K → K → Bool)
    (key : Nat → K) (v w : Nat → V) (p : Nat)
    (h : ∀ i, segment_head equiv key p ≤ i → i ≤ p → v i = w i) :
    segmented_inclusive op equiv key v p = segmented_inclusive op equiv key w p := by
  have hle := segment_head_le equiv key p
  simp only [segmented_inclusive]
  rw [h _ (Nat.le_refl _) hle]
  apply List.foldl_ext
  intro acc i hi
  rw [List.mem_range'_1] at hi
  rw [h i (by omega) (by omega)]

theorem segmented_exclusive_congr {K V : Type} (op : V → V → V) (equiv : K → K → Bool)
    (key : Nat → K) (v w : Nat → V) (init : V) (p : Nat)
    (h : ∀ i, segment_head equiv key p ≤ i → i < p → v i = w i) :
    segmented_exclusive op equiv key v init p = segmented_exclusive op equiv key w init p := by
  have hle := segment_head_le equiv key p
  simp only [segmented_exclusive]
  apply List.foldl_ext
  intro acc i hi
  rw [List.mem_range'_1] at hi
  rw [h i (by omega) (by omega)]

theorem segmented_inclusive_single {K V : Type} (op : V → V → V) (equiv : K → K → Bool)
    (key : Nat → K) (val : Nat → V) (hall : ∀ x y, equiv x y = true) (p : Nat) :
    segmented_inclusive op equiv key val p = unsegmented_inclusive_scan op val p := by
  induction p with
  | zero => exact segmented_inclusive_open op equiv key val 0 (Or.inl rfl)
  | succ p ih =>
    rw [segmented_inclusive_step op equiv key val p (hall _ _), ih]
    rfl

theorem segmented_exclusive_single {K V : Type} (op : V → V → V) (equiv : K → K → Bool)
    (key : Nat → K) (val : Nat → V) (init : V) (hall : ∀ x y, equiv x y = true) (p : Nat) :
    segmented_exclusive op equiv key val init p = unsegmented_exclusive_scan op init val p := by
  induction p with
  | zero => exact segmented_exclusive_open op equiv key val init 0 (Or.inl rfl)
  | succ p ih =>
    rw [segmented_exclusive_step op equiv key val init p (hall _ _), ih]
    rfl

theorem segmented_exclusive_inclusive {K V : Type} (op : V → V → V) (equiv : K → K → Bool)
    (key : Nat → K) (val : Nat → V) (init : V)
    (hassoc : ∀ x y z, op (op x y) z = op x (op y z)) (p : Nat) :
    op (segmented_exclusive op equiv key val init p) (val p)
      = op init (segmented_inclusive op equiv key val p) := by
  induction p with
  | zero =>
    rw [segmented_exclusive_open op equiv key val init 0 (Or.inl rfl),
      segmented_inclusive_open op equiv key val 0 (Or.inl rfl)]
  | succ p ih =>
    cases hb : equiv (key p) (key (p + 1)) with
    | true =>
      rw [segmented_exclusive_step op equiv key val init p hb,
        segmented_inclusive_step op equiv key val p hb, ih, hassoc]
    | false =>
      rw [segmented_exclusive_open op equiv key val init (p + 1) (Or.inr (by simpa using hb)),
        segmented_inclusive_open op equiv key val (p + 1) (Or.inr (by simpa using hb))]

end thrust

namespace thrust.hip_rocprim.__scan_by_key

theorem inclusive_mem_of_healthy {K V O : Type} [Convertible V O] (rt : Runtime)
    (policy : Policy) (key : Nat → K) (N : Nat) (val : Nat → V) (value_result : Nat)
    (equiv : K → K → Bool) (op : V → V → V) (s : State O) (hrt : rt.healthy) (p : Nat)
    (hp : p < N) :
    (inclusive_scan_by_key rt policy key N val value_result equiv op s).2.mem (value_result + p)
      = Convertible.conv (segmented_inclusive op equiv key val p) := by
  have hn : N ≠ 0 := by omega
  rw [inclusive_healthy rt policy key N val value_result equiv op s hn hrt]
  have h1 : value_result ≤ value_result + p ∧ value_result + p < value_result + N := by omega
  simp only [h1, and_self, if_true, Nat.add_sub_cancel_left]

theorem exclusive_mem_of_healthy {K V O I : Type} [Convertible V O] [Convertible I V]
    (rt : Runtime) (policy : Policy) (key : Nat → K) (N : Nat) (val : Nat → V)
    (value_result : Nat) (init : I) (equiv : K → K → Bool) (op : V → V → V) (s : State O)
    (hrt : rt.healthy) (p : Nat) (hp : p < N) :
    (exclusive_scan_by_key rt policy key N val value_result init equiv op s).2.mem
        (value_result + p)
      = Convertible.conv (segmented_exclusive op equiv key val (Convertible.conv init) p) := by
  have hn : N ≠ 0 := by omega
  rw [exclusive_healthy rt policy key N val value_result init equiv op s hn hrt]
  have h1 : value_result ≤ value_result + p ∧ value_result + p < value_result + N := by omega
  simp only [h1, and_self, if_true, Nat.add_sub_cancel_left]

end thrust.hip_rocprim.__scan_by_key

namespace thrust
open hip_rocprim examples

/-- C11. Segment independence: let `[a, b)` be positions of one segment (`a`
opens a segment and no position strictly between `a` and `b` does) and let the
value sequences `v` and `w` agree on `[a, b)`, whatever they are elsewhere (so
in particular when they differ only inside an earlier segment). Then, when the
call on `v` returns, the outputs of the inclusive scan on `v` and on `w` are
equal at every position of `[a, b)`, and so are those of the exclusive scan. -/
theorem segment_independence {K V O I : Type} [Convertible V O] [Convertible I V]
    (rt : Runtime) (policy : Policy) (key : Nat → K) (N : Nat) (v w : Nat → V)
    (value_result : Nat) (init : I) (equiv : K → K → Bool) (op : V → V → V) (s : State O)
    (r : Nat) (a b : Nat) (hb : b ≤ N)
    (hopen : a = 0 ∨ equiv (key (a - 1)) (key a) = false)
    (hrun : ∀ q, a < q → q < b → equiv (key (q - 1)) (key q) = true)
    (hagree : ∀ q, a ≤ q → q < b → v q = w q) (p : Nat) (hap : a ≤ p) (hpb : p < b) :
    ((__scan_by_key.inclusive_scan_by_key rt policy key N v value_result equiv op s).1
        = Outcome.returned r →
      (__scan_by_key.inclusive_scan_by_key rt policy key N v value_result equiv op s).2.mem
          (value_result + p)
        = (__scan_by_key.inclusive_scan_by_key rt policy key N w value_result equiv op s).2.mem
          (value_result + p))
    ∧ ((__scan_by_key.exclusive_scan_by_key rt policy key N v value_result init equiv op s).1
        = Outcome.returned r →
      (__scan_by_key.exclusive_scan_by_key rt policy key N v value_result init equiv op
          s).2.mem (value_result + p)
        = (__scan_by_key.exclusive_scan_by_key rt policy key N w value_result init equiv op
          s).2.mem (value_result + p)) := by
  have hn : N ≠ 0 := by omega
  have hpN : p < N := by omega
  have hhead : segment_head equiv key p = a :=
    segment_head_of_run equiv key a hopen p hap (fun q h1 h2 => hrun q h1 (by omega))
  constructor
  · intro hret
    have hrt := __scan_by_key.inclusive_returned rt policy key N v value_result equiv op s r hn
      hret
    rw [__scan_by_key.inclusive_mem_of_healthy rt policy key N v value_result equiv op s hrt p
        hpN,
      __scan_by_key.inclusive_mem_of_healthy rt policy key N w value_result equiv op s hrt p
        hpN,
      segmented_inclusive_congr op equiv key v w p
        (fun i h1 h2 => hagree i (by omega) (by omega))]
  · intro hret
    have hrt := __scan_by_key.exclusive_returned rt policy key N v value_result init equiv op s
      r hn hret
    rw [__scan_by_key.exclusive_mem_of_healthy rt policy key N v value_result init equiv op s
        hrt p hpN,
      __scan_by_key.exclusive_mem_of_healthy rt policy key N w value_result init equiv op s
        hrt p hpN,
      segmented_exclusive_congr op equiv key v w (Convertible.conv init) p
        (fun i h1 h2 => hagree i (by omega) (by omega))]

/-- C12. Single segment: when `equiv` is true of every pair of keys, a call of
the inclusive engine that returns leaves at every position `p < N` the
unsegmented inclusive scan `val 0 op ... op val p`, and a call of the exclusive
engine that returns leaves the unsegmented exclusive scan seeded with `init`,
`init op val 0 op ... op val (p-1)`, both folded from the left. -/
theorem single_segment_scan {K V : Type} (rt : Runtime) (policy : Policy) (key : Nat → K)
    (N : Nat) (val : Nat → V) (value_result : Nat) (init : V) (equiv : K → K → Bool)
    (op : V → V → V) (s : State V) (r : Nat) (hall : ∀ x y, equiv x y = true) (p : Nat)
    (hp : p < N) :
    ((__scan_by_key.inclusive_scan_by_key rt policy key N val value_result equiv op s).1
        = Outcome.returned r →
      (__scan_by_key.inclusive_scan_by_key rt policy key N val value_result equiv op s).2.mem
          (value_result + p) = unsegmented_inclusive_scan op val p)
    ∧ ((__scan_by_key.exclusive_scan_by_key rt policy key N val value_result init equiv op s).1
        = Outcome.returned r →
      (__scan_by_key.exclusive_scan_by_key rt policy key N val value_result init equiv op
          s).2.mem (value_result + p) = unsegmented_exclusive_scan op init val p) := by
  have hn : N ≠ 0 := by omega
  constructor
  · intro hret
    have hrt := __scan_by_key.inclusive_returned rt policy key N val value_result equiv op s r
      hn hret
    rw [__scan_by_key.inclusive_mem_of_healthy rt policy key N val value_result equiv op s hrt
      p hp]
    exact segmented_inclusive_single op equiv key val hall p
  · intro hret
    have hrt := __scan_by_key.exclusive_returned rt policy key N val value_result init equiv op
      s r hn hret
    rw [__scan_by_key.exclusive_mem_of_healthy rt policy key N val value_result init equiv op s
      hrt p hp]
    exact segmented_exclusive_single op equiv key val init hall p

/-- C15. Inclusive/exclusive relation: for an associative `op`, when the
inclusive engine returns, the exclusive engine returns on the same inputs too,
and their outputs `incl` and `excl` satisfy
`op (excl p) (val p) = op init (incl p)` at every position `p < N`. -/
theorem exclusive_inclusive_relation {K V : Type} (rt : Runtime) (policy : Policy)
    (key : Nat → K) (N : Nat) (val : Nat → V) (value_result : Nat) (init : V)
    (equiv : K → K → Bool) (op : V → V → V) (s : State V) (r : Nat)
    (hassoc : ∀ x y z, op (op x y) z = op x (op y z))
    (hincl : (__scan_by_key.inclusive_scan_by_key rt policy key N val value_result equiv op
      s).1 = Outcome.returned r)
    (p : Nat) (hp : p < N) :
    (__scan_by_key.exclusive_scan_by_key rt policy key N val value_result init equiv op s).1
        = Outcome.returned r
    ∧ op ((__scan_by_key.exclusive_scan_by_key rt policy key N val value_result init equiv op
        s).2.mem (value_result + p)) (val p)
      = op init ((__scan_by_key.inclusive_scan_by_key rt policy key N val value_result equiv op
        s).2.mem (value_result + p)) := by
  have hn : N ≠ 0 := by omega
  have hrt := __scan_by_key.inclusive_returned rt policy key N val value_result equiv op s r hn
    hincl
  constructor
  · rw [__scan_by_key.inclusive_healthy rt policy key N val value_result equiv op s hn hrt]
      at hincl
    rw [__scan_by_key.exclusive_healthy rt policy key N val value_result init equiv op s hn hrt]
    exact hincl
  · rw [__scan_by_key.inclusive_mem_of_healthy rt policy key N val value_result equiv op s hrt
        p hp,
      __scan_by_key.exclusive_mem_of_healthy rt policy key N val value_result init equiv op s
        hrt p hp]
    exact segmented_exclusive_inclusive op equiv key val init hassoc p

end thrust

namespace thrust
open hip_rocprim examples

/-- Witness of C11: keys `[1,1,2,2,2,3]`; the values `[1,2,3,4,5,6]` and
`[9,8,3,4,5,6]` differ only inside the first segment and agree on the second
segment `[2, 5)`; the outputs agree at position 4. -/
theorem segment_independence_witness :
    ((5 ≤ 6 ∧ (2 = 0 ∨ equal_to Nat (of_list [1, 1, 2, 2, 2, 3] 0 (2 - 1))
          (of_list [1, 1, 2, 2, 2, 3] 0 2) = false))
      ∧ (∀ q, 2 + 1 ≤ q → q < 5 → equal_to Nat (of_list [1, 1, 2, 2, 2, 3] 0 (q - 1))
          (of_list [1, 1, 2, 2, 2, 3] 0 q) = true)
      ∧ (∀ q, 2 ≤ q → q < 5 → of_list [1, 2, 3, 4, 5, 6] (0 : Int) q
          = of_list [9, 8, 3, 4, 5, 6] (0 : Int) q))
    ∧ (__scan_by_key.inclusive_scan_by_key runtime_ok policy (of_list [1, 1, 2, 2, 2, 3] 0) 6
        (of_list [1, 2, 3, 4, 5, 6] (0 : Int)) 100 (equal_to Nat) (plus Int)
        (fresh (0 : Int))).2.mem (100 + 4)
      = (__scan_by_key.inclusive_scan_by_key runtime_ok policy (of_list [1, 1, 2, 2, 2, 3] 0) 6
        (of_list [9, 8, 3, 4, 5, 6] (0 : Int)) 100 (equal_to Nat) (plus Int)
        (fresh (0 : Int))).2.mem (100 + 4)
    ∧ (__scan_by_key.exclusive_scan_by_key runtime_ok policy (of_list [1, 1, 2, 2, 2, 3] 0) 6
        (of_list [1, 2, 3, 4, 5, 6] (0 : Int)) 100 (10 : Int) (equal_to Nat) (plus Int)
        (fresh (0 : Int))).2.mem (100 + 4)
      = (__scan_by_key.exclusive_scan_by_key runtime_ok policy (of_list [1, 1, 2, 2, 2, 3] 0) 6
        (of_list [9, 8, 3, 4, 5, 6] (0 : Int)) 100 (10 : Int) (equal_to Nat) (plus Int)
        (fresh (0 : Int))).2.mem (100 + 4) :=
  ⟨⟨⟨by decide, by decide⟩, by decide, by decide⟩,
    (segment_independence runtime_ok policy (of_list [1, 1, 2, 2, 2, 3] 0) 6
      (of_list [1, 2, 3, 4, 5, 6] (0 : Int)) (of_list [9, 8, 3, 4, 5, 6] (0 : Int)) 100
      (10 : Int) (equal_to Nat) (plus Int) (fresh (0 : Int)) 106 2 5 (by decide) (by decide)
      (show ∀ q, 2 + 1 ≤ q → q < 5 → equal_to Nat (of_list [1, 1, 2, 2, 2, 3] 0 (q - 1))
        (of_list [1, 1, 2, 2, 2, 3] 0 q) = true from by decide)
      (by decide) 4 (by decide) (by decide)).1 (by decide),
    (segment_independence runtime_ok policy (of_list [1, 1, 2, 2, 2, 3] 0) 6
      (of_list [1, 2, 3, 4, 5, 6] (0 : Int)) (of_list [9, 8, 3, 4, 5, 6] (0 : Int)) 100
      (10 : Int) (equal_to Nat) (plus Int) (fresh (0 : Int)) 106 2 5 (by decide) (by decide)
      (show ∀ q, 2 + 1 ≤ q → q < 5 → equal_to Nat (of_list [1, 1, 2, 2, 2, 3] 0 (q - 1))
        (of_list [1, 1, 2, 2, 2, 3] 0 q) = true from by decide)
      (by decide) 4 (by decide) (by decide)).2 (by decide)⟩

end thrust

namespace thrust
open hip_rocprim examples

/-- Witness of C12: with the equivalence that is always true, keys `[1,2,3,4]`
and values `[1,2,3,4]` give the inclusive scan `[1,3,6,10]` and, seeded with
10, the exclusive scan `[10,11,13,16]`; position 3 holds the unsegmented
scans. -/
theorem single_segment_scan_witness :
    output (__scan_by_key.inclusive_scan_by_key runtime_ok policy (of_list [1, 2, 3, 4] 0) 4
        (of_list [1, 2, 3, 4] (0 : Int)) 100 (fun _ _ => true) (plus Int) (fresh (0 : Int)))
        100 4 = [1, 3, 6, 10]
    ∧ output (__scan_by_key.exclusive_scan_by_key runtime_ok policy (of_list [1, 2, 3, 4] 0) 4
        (of_list [1, 2, 3, 4] (0 : Int)) 100 (10 : Int) (fun _ _ => true) (plus Int)
        (fresh (0 : Int))) 100 4 = [10, 11, 13, 16]
    ∧ (__scan_by_key.inclusive_scan_by_key runtime_ok policy (of_list [1, 2, 3, 4] 0) 4
        (of_list [1, 2, 3, 4] (0 : Int)) 100 (fun _ _ => true) (plus Int)
        (fresh (0 : Int))).2.mem (100 + 3)
      = unsegmented_inclusive_scan (plus Int) (of_list [1, 2, 3, 4] (0 : Int)) 3
    ∧ (__scan_by_key.exclusive_scan_by_key runtime_ok policy (of_list [1, 2, 3, 4] 0) 4
        (of_list [1, 2, 3, 4] (0 : Int)) 100 (10 : Int) (fun _ _ => true) (plus Int)
        (fresh (0 : Int))).2.mem (100 + 3)
      = unsegmented_exclusive_scan (plus Int) 10 (of_list [1, 2, 3, 4] (0 : Int)) 3 :=
  ⟨by decide, by decide,
    (single_segment_scan runtime_ok policy (of_list [1, 2, 3, 4] 0) 4
      (of_list [1, 2, 3, 4] (0 : Int)) 100 (10 : Int) (fun _ _ => true) (plus Int)
      (fresh (0 : Int)) 104 (fun _ _ => rfl) 3 (by decide)).1 (by decide),
    (single_segment_scan runtime_ok policy (of_list [1, 2, 3, 4] 0) 4
      (of_list [1, 2, 3, 4] (0 : Int)) 100 (10 : Int) (fun _ _ => true) (plus Int)
      (fresh (0 : Int)) 104 (fun _ _ => rfl) 3 (by decide)).2 (by decide)⟩

/-- Witness of C15: keys `[1,1,2,2,2,3]`, values `[1,2,3,4,5,6]`, `init = 10`
and `plus`: at position 4 the exclusive output 17 plus the value 5 is `init`
plus the inclusive output 12. -/
theorem exclusive_inclusive_relation_witness :
    (__scan_by_key.inclusive_scan_by_key runtime_ok policy (of_list [1, 1, 2, 2, 2, 3] 0) 6
        (of_list [1, 2, 3, 4, 5, 6] (0 : Int)) 100 (equal_to Nat) (plus Int)
        (fresh (0 : Int))).1 = Outcome.returned 106
    ∧ ((__scan_by_key.exclusive_scan_by_key runtime_ok policy (of_list [1, 1, 2, 2, 2, 3] 0) 6
        (of_list [1, 2, 3, 4, 5, 6] (0 : Int)) 100 (10 : Int) (equal_to Nat) (plus Int)
        (fresh (0 : Int))).1 = Outcome.returned 106
      ∧ plus Int ((__scan_by_key.exclusive_scan_by_key runtime_ok policy
          (of_list [1, 1, 2, 2, 2, 3] 0) 6 (of_list [1, 2, 3, 4, 5, 6] (0 : Int)) 100
          (10 : Int) (equal_to Nat) (plus Int) (fresh (0 : Int))).2.mem (100 + 4))
          (of_list [1, 2, 3, 4, 5, 6] (0 : Int) 4)
        = plus Int 10 ((__scan_by_key.inclusive_scan_by_key runtime_ok policy
          (of_list [1, 1, 2, 2, 2, 3] 0) 6 (of_list [1, 2, 3, 4, 5, 6] (0 : Int)) 100
          (equal_to Nat) (plus Int) (fresh (0 : Int))).2.mem (100 + 4)))
    ∧ plus Int 17 5 = plus Int 10 12 :=
  ⟨by decide,
    exclusive_inclusive_relation runtime_ok policy (of_list [1, 1, 2, 2, 2, 3] 0) 6
      (of_list [1, 2, 3, 4, 5, 6] (0 : Int)) 100 (10 : Int) (equal_to Nat) (plus Int)
      (fresh (0 : Int)) 106 (fun x y z => Int.add_assoc x y z) (by decide) 4 (by decide),
    by decide⟩

/-- C13. Sequential tag conversion: for a value `p` of any policy type the
converting constructor of `seq_t` is defined and gives the default-constructed
tag, which is the tag `thrust::seq`; the result is the same for any two
policies of any two types, and `seq_t` has no other value, so that nothing of
`p` is carried. -/
theorem seq_t_conversion {DerivedPolicy : Type} (p : DerivedPolicy) :
    detail.seq_t.of_policy p = detail.seq_t.default
    ∧ detail.seq_t.of_policy p = seq
    ∧ (∀ (OtherPolicy : Type) (q : OtherPolicy),
        detail.seq_t.of_policy p = detail.seq_t.of_policy q)
    ∧ (∀ t : detail.seq_t, t = detail.seq_t.default) :=
  ⟨rfl, rfl, fun _ _ => rfl, fun _ => rfl⟩

theorem returns_constant_next {G T : Type} (call : G → T × G) (gen : G) (v : T)
    (h : returns_constant call gen v) : returns_constant call (call gen).2 v := by
  intro k
  have := h (k + 1)
  rwa [Function.iterate_succ_apply] at this

theorem sequential.generate_host_constant {G T : Type} (call : G → T × G) (v : T) (xs : List T) :
    ∀ gen : G, returns_constant call gen v →
      sequential.generate call xs gen = List.replicate xs.length v := by
  induction xs with
  | nil => intro gen _; rfl
  | cons x rest ih =>
    intro gen h
    have h0 : (call gen).1 = v := h 0
    simp only [sequential.generate, List.length_cons, List.replicate_succ, h0,
      ih (call gen).2 (returns_constant_next call gen v h)]

theorem hip_rocprim.generate_device_constant {G T : Type} (call : G → T × G) (v : T) (xs : List T)
    (gen : G) (h : returns_constant call gen v) :
    hip_rocprim.generate call xs gen = List.replicate xs.length v := by
  have h0 : (call gen).1 = v := h 0
  simp only [hip_rocprim.generate, h0]
  induction xs with
  | nil => rfl
  | cons x rest ih => simp [List.replicate_succ, ih]

theorem generate_constant {G T : Type} (sys : System) (call : G → T × G) (v : T)
    (xs : List T) (gen : G) (h : returns_constant call gen v) :
    generate sys call xs gen = List.replicate xs.length v := by
  cases sys with
  | host => exact sequential.generate_host_constant call v xs gen h
  | device => exact hip_rocprim.generate_device_constant call v xs gen h

end thrust

namespace test_generate

theorem return_value_returns_constant {T : Type} (v : T) :
    thrust.returns_constant return_value.call (⟨v⟩ : return_value T) v := by
  intro k
  induction k with
  | zero => rfl
  | succ k ih =>
    rw [Function.iterate_succ_apply]
    exact ih

end test_generate

namespace thrust

/-- C14. The generator-fill covers the whole range: for a sequence `xs` of
length `n` on either system and a generator whose every invocation returns
`v`, after `generate` over the whole sequence, and after `generate_n` with
`n`, the sequence is `n` times `v` (the length is unchanged and every element
is `v`), `generate_n` returns `first + n`, and the host result equals the
device result for every length. -/
theorem generate_fills_range {G T : Type} (call : G → T × G) (gen : G) (v : T) (xs : List T)
    (h : returns_constant call gen v) :
    (∀ sys : System, generate sys call xs gen = List.replicate xs.length v)
    ∧ (∀ sys : System, generate_n sys call xs xs.length gen
        = (List.replicate xs.length v, xs.length))
    ∧ (∀ sys : System, (generate sys call xs gen).length = xs.length)
    ∧ generate System.host call xs gen = generate System.device call xs gen := by
  refine ⟨fun sys => generate_constant sys call v xs gen h, fun sys => ?_, fun sys => ?_, ?_⟩
  · have hlen : (List.take xs.length xs).length = xs.length := by simp
    simp only [generate_n, List.drop_length, List.append_nil, Prod.mk.injEq, and_true]
    rw [generate_constant sys call v (xs.take xs.length) gen h, hlen]
  · rw [generate_constant sys call v xs gen h, List.length_replicate]
  · rw [generate_constant System.host call v xs gen h,
      generate_constant System.device call v xs gen h]

/-- Witness of C14: a vector of length 5 and the generator `return_value` with
value 13 give `[13,13,13,13,13]` through `generate` and through `generate_n`,
on the host and on the device, as the tests of test_generate.cpp assert. -/
theorem generate_fills_range_witness :
    returns_constant test_generate.return_value.call (⟨13⟩ : test_generate.return_value Int) 13
    ∧ generate System.host test_generate.return_value.call (List.replicate 5 (0 : Int)) ⟨13⟩
      = [13, 13, 13, 13, 13]
    ∧ generate System.device test_generate.return_value.call (List.replicate 5 (0 : Int)) ⟨13⟩
      = [13, 13, 13, 13, 13]
    ∧ generate_n System.host test_generate.return_value.call (List.replicate 5 (0 : Int)) 5
        ⟨13⟩ = ([13, 13, 13, 13, 13], 5)
    ∧ test_generate.TestGenerateSimple System.host (0 : Int) 13 = [13, 13, 13, 13, 13]
    ∧ test_generate.TestGenerateNSimple System.host (0 : Int) 13 = [13, 13, 13, 13, 13]
    ∧ (test_generate.TestGenerate 5 (0 : Int) 13).1 = (test_generate.TestGenerate 5 (0 : Int) 13).2 :=
  ⟨test_generate.return_value_returns_constant 13,
    (generate_fills_range test_generate.return_value.call ⟨13⟩ 13 (List.replicate 5 (0 : Int))
      (test_generate.return_value_returns_constant 13)).1 System.host,
    (generate_fills_range test_generate.return_value.call ⟨13⟩ 13 (List.replicate 5 (0 : Int))
      (test_generate.return_value_returns_constant 13)).1 System.device,
    (generate_fills_range test_generate.return_value.call ⟨13⟩ 13 (List.replicate 5 (0 : Int))
      (test_generate.return_value_returns_constant 13)).2.1 System.host,
    by decide, by decide, by decide⟩

end thrust
